import Mathlib

/-
Verification of the staged evidence-fusion pipeline of the
cv-ai-image-detector repository: a shallow embedding in Lean 4 of the
pipeline runner (pkg/analyzer/pipeline/pipelines.go), the content cache
(package cache), and the verdict aggregator
(internal/handlers/verdict/{calculator,scores,boost,calibration,determination}.go),
together with proofs of the spec's testable properties.

Modelling conventions:
- Go `float64` values are modelled as rationals (ℚ); the numeric code under
  study is threshold/affine arithmetic for which exact rationals are faithful.
- Go `interface{}` analyzer results are modelled by the inductive `GoVal`
  (maps are association lists in deterministic order; Go map iteration order
  is unspecified, and no claim below depends on it).
- Go `int` values inside result maps are folded into `GoVal.vFloat`.
- Timestamps and durations are natural numbers (an abstract clock).
- SHA-256 content hashing is modelled as an injective fingerprint of the byte
  list (the bytes themselves): every claim below depends only on the key
  being determined by content, never on properties of the hash itself.
- Logging, metrics recording and mutexes are side effects with no influence
  on the returned values and are not modelled.
-/

set_option maxHeartbeats 1000000

namespace ImageAnalyzer

/-- Dynamic Go value (`interface{}`) as decoded from an analyzer result.
`vOther` stands for values that are not maps, strings, floats or bools,
e.g. the typed `*EXIFData` struct returned by `AnalyzeEXIF`. -/
inductive GoVal where
  | vFloat : ℚ → GoVal
  | vStr : String → GoVal
  | vBool : Bool → GoVal
  | vMap : List (String × GoVal) → GoVal
  | vOther : GoVal

/-- First-match association-list lookup, the model of Go map indexing. -/
def lookupA {α : Type} : List (String × α) → String → Option α
  | [], _ => none
  | p :: rest, k => if p.1 = k then some p.2 else lookupA rest k

/-- View a `GoVal` as a map, the model of the `.(map[string]interface{})`
type assertion. -/
def asMap : GoVal → Option (List (String × GoVal))
  | GoVal.vMap d => some d
  | _ => none

/-- Map lookup returning a float, the model of a direct `.(float64)`
type assertion on an indexed value. -/
def lookupFloat (d : List (String × GoVal)) (k : String) : Option ℚ :=
  match lookupA d k with
  | some (GoVal.vFloat q) => some q
  | _ => none

/-- Map lookup returning a map, the model of a direct
`.(map[string]interface{})` type assertion on an indexed value. -/
def lookupMap (d : List (String × GoVal)) (k : String) :
    Option (List (String × GoVal)) :=
  match lookupA d k with
  | some (GoVal.vMap m) => some m
  | _ => none

/-- Substring test on character lists: `strContains needle hay` is the model
of Go `strings.Contains(hay, needle)`. -/
def strContains (needle : List Char) : List Char → Bool
  | [] => needle.isEmpty
  | c :: t => needle.isPrefixOf (c :: t) || strContains needle t

/-- Character-wise lowering, the model of `strings.ToLower` (the keyword
strings involved are ASCII). -/
def lowerChars (s : String) : List Char :=
  s.data.map Char.toLower

/-- Value of a digit string, helper for the float-literal parser. -/
def digitsVal (cs : List Char) : ℕ :=
  cs.foldl (fun a c => a * 10 + (c.toNat - 48)) 0

/-- Unsigned part of a decimal float literal: digits with an optional
fractional part. -/
def parseUnsigned (cs : List Char) : Option ℚ :=
  let ip := cs.takeWhile Char.isDigit
  let rest := cs.dropWhile Char.isDigit
  match rest with
  | [] => if ip.isEmpty then none else some ((digitsVal ip : ℚ))
  | c :: fp =>
    if c = ('.') ∧ fp.all Char.isDigit ∧ ¬(ip.isEmpty ∧ fp.isEmpty) then
      some ((digitsVal ip : ℚ) + (digitsVal fp : ℚ) / (10 : ℚ) ^ fp.length)
    else none

/-- Model of `strconv.ParseFloat` restricted to plain decimal literals with
optional sign (the only shapes analyzer results use; exponent, hex and
infinity forms are outside the modelled input space). -/
def parseFloatQ (s : String) : Option ℚ :=
  match s.data with
  | c :: t =>
    if c = ('-') then (parseUnsigned t).map (fun q => -q)
    else if c = ('+') then parseUnsigned t
    else parseUnsigned (c :: t)
  | [] => none

/-- Model of `utils.GetFloatValue`: float directly, or a parseable string
(the Go `int` case is folded into `vFloat`). -/
def getFloatValue (d : List (String × GoVal)) (k : String) : Option ℚ :=
  match lookupA d k with
  | some (GoVal.vFloat q) => some q
  | some (GoVal.vStr s) => parseFloatQ s
  | _ => none

/-- The generative-AI tool keywords of `detectAIFromMetadata`
(pipelines.go). -/
def aiKeywords : List String :=
  ["ChatGPT", "DALL-E", "Midjourney", "Stable Diffusion",
   "trainedAlgorithmicMedia", "AI generated"]

/-- Model of `detectAIFromMetadata`: 1.0 when any string value of the map
contains one of the tool keywords case-insensitively, else the -1
sentinel. -/
def detectAIFromMetadata (d : List (String × GoVal)) : ℚ :=
  if d.any (fun kv =>
      match kv.2 with
      | GoVal.vStr s =>
          aiKeywords.any (fun k => strContains (lowerChars k) (lowerChars s))
      | _ => false)
  then 1 else -1

/-- Model of `hasDefinitiveMetadataEvidence` (pipelines.go). -/
def hasDefinitiveMetadataEvidence (v : GoVal) : Bool :=
  match asMap v with
  | some d => decide (detectAIFromMetadata d ≥ 19/20)
  | none => false

/-- Model of `hasDefinitiveC2PAEvidence` (pipelines.go): the `score` field,
as a float, is at least 95. -/
def hasDefinitiveC2PAEvidence (v : GoVal) : Bool :=
  match asMap v with
  | some d =>
    match lookupA d ("score") with
    | some (GoVal.vFloat q) => decide (q ≥ 95)
    | _ => false
  | none => false

/-- Model of `extractConfidenceScore` (pipelines.go): the dispatch chain over
known nested field shapes; -1 is the no-signal sentinel. The
`overall_assessment` branch appears twice in the source (artifacts and
pixel-analysis copies); the second occurrence is the same expression. -/
def extractConfidenceScore (v : GoVal) : ℚ :=
  match asMap v with
  | none => -1
  | some d =>
    let b1 := lookupFloat d ("ai_color_score")
    let b2 := (lookupMap d ("advanced_assessment")).bind
        (fun a => lookupFloat a ("advanced_ai_probability"))
    let b3 := (lookupMap d ("compression_ai_analysis")).bind
        (fun a => lookupFloat a ("ai_probability"))
    let b4 := d.findSome? (fun kv => (asMap kv.2).bind
        (fun fd => (lookupMap fd ("compression_ai_analysis")).bind
          (fun a => lookupFloat a ("ai_probability"))))
    let b5 := (lookupMap d ("overall_assessment")).bind
        (fun a => lookupFloat a ("ai_probability_score"))
    let b6 := (lookupFloat d ("score")).map (fun q => q / 100)
    let b7 := (lookupMap d ("overall_assessment")).bind
        (fun a => lookupFloat a ("ai_probability_score"))
    let b8 := (lookupMap d ("lighting_analysis")).bind
        (fun a => lookupFloat a ("ai_lighting_score"))
    let b9 := (lookupMap d ("object_analysis")).bind
        (fun a => lookupFloat a ("ai_coherence_score"))
    let b10 :=
      match lookupA d ("prediction") with
      | some (GoVal.vStr p) =>
        (lookupFloat d ("probability")).map
          (fun q => if p = "fake" then q else 1 - q)
      | _ => none
    (b1 <|> b2 <|> b3 <|> b4 <|> b5 <|> b6 <|> b7 <|> b8 <|> b9 <|> b10).getD (-1)

/-- Model of `calculateEXIFScore` (scores.go): 0 when camera info is present,
otherwise the -1 (ignore) sentinel. -/
def calculateEXIFScore (d : List (String × GoVal)) : ℚ :=
  match lookupA d ("has_camera_info") with
  | some (GoVal.vBool true) => 0
  | _ => -1

/-- Model of `calculateMetadataScore` (scores.go). -/
def calculateMetadataScore (d : List (String × GoVal)) : ℚ :=
  match lookupA d ("has_metadata") with
  | some (GoVal.vBool true) => 0
  | _ => -1

/-- Model of `calculateAIModelScore` (scores.go): the `probability` field,
defaulting to 0.5 when it is absent. -/
def calculateAIModelScore (d : List (String × GoVal)) : ℚ :=
  (getFloatValue d ("probability")).getD (1/2)

/-- Model of `calculateArtifactsScore` (scores.go). -/
def calculateArtifactsScore (d : List (String × GoVal)) : ℚ :=
  match getFloatValue d ("overall_assessment") with
  | some s => s
  | none =>
    match (lookupMap d ("overall_assessment")).bind
        (fun a => getFloatValue a ("ai_probability_score")) with
    | some s => s
    | none => 2/5

/-- Model of `calculateAdvancedArtifactsScore` (scores.go). -/
def calculateAdvancedArtifactsScore (d : List (String × GoVal)) : ℚ :=
  match getFloatValue d ("advanced_assessment") with
  | some s => s
  | none =>
    match (lookupMap d ("advanced_assessment")).bind
        (fun a => getFloatValue a ("advanced_ai_probability")) with
    | some s => s
    | none =>
      match getFloatValue d ("advanced_ai_probability") with
      | some s => s
      | none => 333/1000

/-- Model of `calculateCompressionScore` (scores.go): first file entry with a
`compression_ai_analysis.ai_probability` value, defaulting to 0.5. -/
def calculateCompressionScore (d : List (String × GoVal)) : ℚ :=
  (d.findSome? (fun kv => (asMap kv.2).bind
    (fun fm => (lookupMap fm ("compression_ai_analysis")).bind
      (fun a => getFloatValue a ("ai_probability"))))).getD (1/2)

/-- Model of `calculatePixelAnalysisScore` (scores.go). -/
def calculatePixelAnalysisScore (d : List (String × GoVal)) : ℚ :=
  ((lookupMap d ("overall_assessment")).bind
    (fun a => getFloatValue a ("ai_probability_score"))).getD (1/2)

/-- Model of `calculateLightingAnalysisScore` (scores.go). -/
def calculateLightingAnalysisScore (d : List (String × GoVal)) : ℚ :=
  ((lookupMap d ("lighting_analysis")).bind
    (fun a => getFloatValue a ("ai_lighting_score"))).getD (1/2)

/-- Model of `calculateColorBalanceScore` (scores.go). -/
def calculateColorBalanceScore (d : List (String × GoVal)) : ℚ :=
  (getFloatValue d ("ai_color_score")).getD (1/2)

/-- Model of `calculateObjectCoherenceScore` (scores.go). -/
def calculateObjectCoherenceScore (d : List (String × GoVal)) : ℚ :=
  (getFloatValue d ("ai_probability")).getD (333/1000)

/-- Model of `calculateMetadataQuickScore` (scores.go): always ignored. -/
def calculateMetadataQuickScore (_d : List (String × GoVal)) : ℚ :=
  -1

/-- Model of `calculateC2PAScore` (scores.go): ignore when no claims were
found, else the `score` field normalised to 0-1. -/
def calculateC2PAScore (d : List (String × GoVal)) : ℚ :=
  if (match lookupA d ("claims_found") with
      | some (GoVal.vBool false) => true
      | _ => false) then -1
  else if (match getFloatValue d ("claims_count") with
      | some q => decide (q = 0)
      | none => false) then -1
  else
    match getFloatValue d ("score") with
    | some q => q / 100
    | none => -1

/-- One human-readable reasoning statement of the aggregator. The source
emits formatted strings; the model keeps the discriminating content (which
branch fired, for which method, at which score) and abstracts the
`fmt.Sprintf` text. -/
inductive ReasonLine where
  | definitiveMetadata : ReasonLine
  | definitiveC2PA : ReasonLine
  | strongAI : String → ℚ → ReasonLine
  | authentic : String → ℚ → ReasonLine
  | moderate : String → ℚ → ReasonLine
  | techError : ReasonLine
deriving DecidableEq

/-- The method categorisation of `CalculateOverallVerdict` (calculator.go):
computer-vision methods, metadata merged in. -/
def cvMethods : List String :=
  ["artifacts", "lighting-analysis", "advanced-artifacts", "pixel-analysis",
   "color-balance", "object-coherence", "compression", "metadata", "c2pa",
   "exif", "metadata-quick"]

/-- The AI deep-learning category of `CalculateOverallVerdict`. -/
def aiMethods : List String :=
  ["ai-model"]

/-- The weight table of `CalculateOverallVerdict` (calculator.go). -/
def weightsTable : List (String × ℚ) :=
  [("ai-model", 6),
   ("compression", 4),
   ("lighting-analysis", 7/2),
   ("artifacts", 3),
   ("advanced-artifacts", 3),
   ("color-balance", 3),
   ("metadata", 5/2),
   ("pixel-analysis", 5/2),
   ("c2pa", 2),
   ("object-coherence", 1/2),
   ("exif", 1),
   ("metadata-quick", 4/5)]

/-- `weights[name]` with Go's zero default for absent keys. -/
def weightOf (n : String) : ℚ :=
  (lookupA weightsTable n).getD 0

/-- The calibration factor table of `applyBalancedCalibration`
(calibration.go). -/
def calibrationFactors : List (String × ℚ) :=
  [("lighting-analysis", 13/10),
   ("artifacts", 21/20),
   ("advanced-artifacts", 23/20),
   ("pixel-analysis", 21/20),
   ("color-balance", 1),
   ("object-coherence", 9/10),
   ("compression", 2/5),
   ("metadata", 1),
   ("c2pa", 1),
   ("exif", 7/10),
   ("ai-model", 1),
   ("metadata-quick", 1)]

/-- Model of `applyBalancedCalibration` (calibration.go): multiply by the
per-method factor, clamped above at 1. -/
def applyBalancedCalibration (scores : List (String × ℚ)) :
    List (String × ℚ) :=
  scores.map (fun p =>
    match lookupA calibrationFactors p.1 with
    | some f => (p.1, min 1 (p.2 * f))
    | none => p)

/-- Model of `calculateAdvancedBoost` (boost.go): consistency count over four
traditional methods, ai-model/artifacts cross conditions, authenticity
dampening, extremity bonus, clamped to [0.4, 2.0]. -/
def calculateAdvancedBoost (scores : List (String × ℚ)) : ℚ :=
  let tMethods := ["artifacts", "lighting-analysis", "advanced-artifacts",
    "pixel-analysis"]
  let cCount := (tMethods.filter (fun m =>
    match lookupA scores m with
    | some s => decide (s ≥ 2/5)
    | none => false)).length
  let b1 : ℚ := if cCount ≥ 3 then 7/5 else if cCount ≥ 2 then 6/5 else 1
  let b2 :=
    match lookupA scores ("ai-model") with
    | none => b1
    | some am =>
      let c1 :=
        match lookupA scores ("artifacts") with
        | some art =>
          let x := if am ≥ 1/2 ∧ art ≥ 3/5 then b1 * (3/2) else b1
          if am ≥ 7/10 ∧ art ≤ 3/10 then x * (13/10) else x
        | none => b1
      let c2 :=
        if am ≤ 3/10 then
          let a1 : ℕ :=
            match lookupA scores ("compression") with
            | some s => if s ≤ 3/10 then 1 else 0
            | none => 0
          let a2 : ℕ :=
            match lookupA scores ("color-balance") with
            | some s => if s ≤ 1/5 then 1 else 0
            | none => 0
          let a3 : ℕ :=
            match lookupA scores ("artifacts") with
            | some s => if s ≤ 2/5 then 1 else 0
            | none => 0
          if a1 + a2 + a3 ≥ 2 then c1 * (3/5) else c1
        else c1
      if am ≥ 4/5 ∨ am ≤ 1/5 then c2 * (7/5) else c2
  if b2 > 2 then 2 else if b2 < 2/5 then 2/5 else b2

/-- Model of `calculateConsistency` (determination.go): 1 minus the variance
of the scores, floored at 0; 0.5 below two scores. -/
def calculateConsistency (scores : List (String × ℚ)) : ℚ :=
  if scores.length < 2 then 1/2
  else
    let vals := scores.map (fun p => p.2)
    let mean := vals.sum / (vals.length : ℚ)
    let variance :=
      (vals.map (fun s => (s - mean) * (s - mean))).sum / (vals.length : ℚ)
    max 0 (1 - variance)

/-- Model of `calculateConfidence` (determination.go). -/
def calculateConfidence (scores : List (String × ℚ)) (total : ℕ) : ℚ :=
  if total = 0 then 1/2
  else
    let mc : ℚ := (scores.length : ℚ) / (total : ℚ)
    let cb := calculateConsistency scores
    let c := mc * (7/10) + cb * (3/10)
    let c2 := if c < 1/2 then 1/2 else c
    if c2 > 99/100 then 99/100 else c2

/-- Model of `determineBalancedVerdict` (determination.go): the threshold
ladder 0.75 / 0.60 / 0.59, raised by 0.05 when fewer than four methods
scored, with a per-branch confidence cap. -/
def determineBalancedVerdict (score : ℚ) (scores : List (String × ℚ)) :
    String × ℚ :=
  let base := calculateConfidence scores scores.length
  let adj : ℚ := if scores.length < 4 then 1/20 else 0
  if score ≥ 3/4 + adj then ("AI Generated", min (19/20) (base + 3/20))
  else if score ≥ 3/5 + adj then
    ("Likely AI Generated", min (17/20) (base + 1/10))
  else if score ≥ 59/100 + adj then
    ("Likely Authentic", min (17/20) (base + 1/10))
  else ("Authentic", min (2/5) (base + 3/20))

/-- Position of a verdict label on the authentic-to-AI scale used by
`determineBalancedVerdict`. -/
def verdictRank (v : String) : ℕ :=
  if v = "Authentic" then 0
  else if v = "Likely Authentic" then 1
  else if v = "Likely AI Generated" then 2
  else if v = "AI Generated" then 3
  else 0

/-- The per-stage dispatch of `CalculateOverallVerdict` (calculator.go): the
specialised score functions, falling back to
`pipeline.ExtractConfidenceScore`. -/
def scoreFor (name : String) (d : List (String × GoVal)) : ℚ :=
  match name with
  | "artifacts" => calculateArtifactsScore d
  | "advanced-artifacts" => calculateAdvancedArtifactsScore d
  | "ai-model" => calculateAIModelScore d
  | "compression" => calculateCompressionScore d
  | "pixel-analysis" => calculatePixelAnalysisScore d
  | "lighting-analysis" => calculateLightingAnalysisScore d
  | "color-balance" => calculateColorBalanceScore d
  | "object-coherence" => calculateObjectCoherenceScore d
  | "exif" => calculateEXIFScore d
  | "metadata" => calculateMetadataScore d
  | "metadata-quick" => calculateMetadataQuickScore d
  | "c2pa" => calculateC2PAScore d
  | _ => extractConfidenceScore (GoVal.vMap d)

/-- Accumulator of the score-collection loop of `CalculateOverallVerdict`:
collected scores, the two category buckets, reasoning so far, and
`definitiveScore` (initialised to -1, set to 1 on definitive evidence). -/
structure AggState where
  scores : List (String × ℚ)
  cv : List (String × ℚ)
  ai : List (String × ℚ)
  reasoning : List ReasonLine
  definitive : ℚ

/-- Initial accumulator of the collection loop. -/
def initAgg : AggState :=
  { scores := [], cv := [], ai := [], reasoning := [], definitive := -1 }

/-- The score-collection loop of `CalculateOverallVerdict`: skip entries that
are not string-keyed maps, record non-negative scores, categorise them, and
break on a definitive metadata/c2pa score of at least 0.95. -/
def collect : List (String × GoVal) → AggState → AggState
  | [], st => st
  | p :: rest, st =>
    match asMap p.2 with
    | none => collect rest st
    | some d =>
      let s := scoreFor p.1 d
      if s ≥ 0 then
        let st1 : AggState :=
          { st with
            scores := st.scores ++ [(p.1, s)],
            cv := if cvMethods.contains p.1 then st.cv ++ [(p.1, s)]
              else st.cv,
            ai := if cvMethods.contains p.1 then st.ai
              else if aiMethods.contains p.1 then st.ai ++ [(p.1, s)]
              else st.ai }
        if p.1 = "metadata" ∧ s ≥ 19/20 then
          { st1 with
            definitive := 1,
            reasoning := st1.reasoning ++ [ReasonLine.definitiveMetadata] }
        else if p.1 = "c2pa" ∧ s ≥ 19/20 then
          { st1 with
            definitive := 1,
            reasoning := st1.reasoning ++ [ReasonLine.definitiveC2PA] }
        else collect rest st1
      else collect rest st

/-- The weighting loop of `CalculateOverallVerdict`: zero-weight and
ai-model entries are skipped; the adaptive multiplier raises the weight of
extreme scores; one reasoning line is emitted per contributing method. -/
def weightLoop : List (String × ℚ) → ℚ → ℚ → List ReasonLine →
    ℚ × ℚ × List ReasonLine
  | [], ws, wt, rs => (ws, wt, rs)
  | p :: rest, ws, wt, rs =>
    let w := weightOf p.1
    if w = 0 then weightLoop rest ws wt rs
    else if p.1 = "ai-model" then weightLoop rest ws wt rs
    else
      let aw := if p.2 ≥ 4/5 then w * (6/5)
        else if p.2 ≤ 1/5 then w * (13/10)
        else w
      let line := if p.2 ≥ 7/10 then ReasonLine.strongAI p.1 p.2
        else if p.2 ≤ 3/10 then ReasonLine.authentic p.1 p.2
        else ReasonLine.moderate p.1 p.2
      weightLoop rest (ws + p.2 * aw) (wt + aw) (rs ++ [line])

/-- Model of `calculateAnalysisQuality` (calculator.go). -/
def calculateAnalysisQuality (total successful : ℕ) : ℚ :=
  if total = 0 then 0 else (successful : ℚ) / (total : ℚ)

/-- Clamp of the final score to [0,1] (calculator.go lines 228-232). -/
def clamp01 (q : ℚ) : ℚ :=
  if q > 1 then 1 else if q < 0 then 0 else q

/-- The output of `CalculateOverallVerdict`. The source returns a
`map[string]interface{}`; the model keeps the fields the specification
speaks about (`summary` and the descriptive `separate_analysis` /
`detailed_breakdown` strings are derived presentation). `probability` is
the final aggregated score multiplied by 100, as in the source. -/
structure VerdictOutput where
  verdict : String
  probability : ℚ
  confidence : ℚ
  reasoning : List ReasonLine
  scores : List (String × ℚ)
  analysisQuality : ℚ
  cvScores : List (String × ℚ)
  aiScores : List (String × ℚ)

/-- Model of `CalculateOverallVerdict` (calculator.go): collect and
categorise scores, short-circuit on definitive evidence, otherwise
calibrate, boost, weight, quality-adjust, clamp and map to a verdict. -/
def CalculateOverallVerdict (results : List (String × GoVal)) :
    VerdictOutput :=
  let st := collect results initAgg
  let quality := calculateAnalysisQuality results.length st.scores.length
  if st.definitive ≥ 0 then
    { verdict := "AI Generated", probability := st.definitive * 100,
      confidence := 19/20, reasoning := st.reasoning, scores := st.scores,
      analysisQuality := quality, cvScores := st.cv, aiScores := st.ai }
  else
    let calibrated := applyBalancedCalibration st.scores
    let boost := calculateAdvancedBoost calibrated
    let wl := weightLoop calibrated 0 0 st.reasoning
    if wl.2.1 = 0 then
      { verdict := "Analysis Failed", probability := 0, confidence := 0,
        reasoning := [ReasonLine.techError], scores := st.scores,
        analysisQuality := quality, cvScores := st.cv, aiScores := st.ai }
    else
      let base := (wl.1 / wl.2.1) * boost
      let ratio := (st.scores.length : ℚ) / 10
      let qb : ℚ := if ratio ≥ 4/5 then 21/20
        else if ratio < 1/2 then 19/20
        else 1
      let fs := clamp01 (base * qb)
      let dv := determineBalancedVerdict fs calibrated
      { verdict := dv.1, probability := fs * 100, confidence := dv.2,
        reasoning := wl.2.2, scores := st.scores,
        analysisQuality := quality, cvScores := st.cv, aiScores := st.ai }

/-- An analysis stage as configured in `getDefaultStages` (pipelines.go).
The `Analyzer` function field of the source is supplied to the runner
separately as an outcome oracle keyed by stage name (see `runFullAnalysis`),
since each concrete analyzer is an external process invocation. Timeouts are
in seconds and are configuration data: a stage attempt that exceeds its
timeout surfaces as an analyzer error in the oracle. -/
structure AnalysisStage where
  name : String
  priority : ℕ
  fastTrack : Bool
  timeoutSec : ℕ
  dependencies : List String

/-- The model of `*PipelineResult` (pipelines.go). -/
structure PipelineResult where
  results : List (String × GoVal)
  stagesRun : List String
  processTime : ℕ
  earlyExit : Bool
  confidence : ℚ
  cacheHit : Bool

/-- The stage catalog of `getDefaultStages` (pipelines.go), in declaration
order. -/
def getDefaultStages : List AnalysisStage :=
  [{ name := "metadata-quick", priority := 1, fastTrack := true,
     timeoutSec := 5, dependencies := [] },
   { name := "c2pa", priority := 1, fastTrack := true,
     timeoutSec := 8, dependencies := [] },
   { name := "exif", priority := 1, fastTrack := true,
     timeoutSec := 2, dependencies := [] },
   { name := "metadata", priority := 2, fastTrack := false,
     timeoutSec := 8, dependencies := [] },
   { name := "artifacts", priority := 3, fastTrack := false,
     timeoutSec := 15, dependencies := [] },
   { name := "compression", priority := 3, fastTrack := false,
     timeoutSec := 10, dependencies := [] },
   { name := "pixel-analysis", priority := 3, fastTrack := false,
     timeoutSec := 18, dependencies := [] },
   { name := "color-balance", priority := 3, fastTrack := false,
     timeoutSec := 12, dependencies := [] },
   { name := "advanced-artifacts", priority := 3, fastTrack := false,
     timeoutSec := 20, dependencies := [] },
   { name := "object-coherence", priority := 4, fastTrack := false,
     timeoutSec := 25, dependencies := [] },
   { name := "lighting-analysis", priority := 4, fastTrack := false,
     timeoutSec := 20, dependencies := [] },
   { name := "ai-model", priority := 2, fastTrack := false,
     timeoutSec := 30, dependencies := [] }]

/-- One adjacent-swap pass of the bubble sort in `getSortedStages`,
carrying the element currently being bubbled. -/
def bubbleOnceAux (a : AnalysisStage) :
    List AnalysisStage → List AnalysisStage
  | [] => [a]
  | b :: rest =>
    if a.priority > b.priority then b :: bubbleOnceAux a rest
    else a :: bubbleOnceAux b rest

/-- One adjacent-swap pass of the bubble sort in `getSortedStages`. -/
def bubbleOnce : List AnalysisStage → List AnalysisStage
  | [] => []
  | a :: rest => bubbleOnceAux a rest

/-- Iterated bubble passes. -/
def bubbleN : ℕ → List AnalysisStage → List AnalysisStage
  | 0, l => l
  | n + 1, l => bubbleN n (bubbleOnce l)

/-- Model of `getSortedStages` (pipelines.go): stable bubble sort of the
stage list by ascending priority (the source runs `len-1` outer passes; one
extra pass of an already-sorted list is the identity, so `len` passes give
the same list). -/
def getSortedStages (l : List AnalysisStage) : List AnalysisStage :=
  bubbleN l.length l

/-- Per-run analyzer-outcome oracle: for each stage name, the value the
stage's `Analyzer` returns for this artifact, or an error (analyzer failure
or stage-timeout expiry, which the source treats identically). -/
def StageEnv : Type :=
  String → Except Unit GoVal

/-- Per-run parent-context state: `canc k = true` means the parent context
is observed cancelled at the check that follows the `k`-th attempted stage
of the full-run phase. Cancellation of the parent is monotone in real time;
no theorem below needs that, so the function is unconstrained. -/
def CancOracle : Type :=
  ℕ → Bool

/-- Model of `runFastTrackStages` (pipelines.go): run the fast-track stages
in order, keeping successes and skipping failures; no cancellation check
occurs in this loop. -/
def runFastTrackStages (env : StageEnv) :
    List AnalysisStage → List (String × GoVal)
  | [] => []
  | s :: rest =>
    if s.fastTrack then
      match env s.name with
      | Except.ok v => (s.name, v) :: runFastTrackStages env rest
      | Except.error _ => runFastTrackStages env rest
    else runFastTrackStages env rest

/-- Model of `shouldEarlyExit` (pipelines.go): definitive metadata-quick or
c2pa evidence among the fast-track results. -/
def shouldEarlyExit (enabled : Bool) (results : List (String × GoVal)) :
    Bool :=
  if enabled then
    (match lookupA results ("metadata-quick") with
     | some v => hasDefinitiveMetadataEvidence v
     | none => false)
    ||
    (match lookupA results ("c2pa") with
     | some v => hasDefinitiveC2PAEvidence v
     | none => false)
  else false

/-- Model of `calculateEarlyConfidence` (pipelines.go). -/
def calculateEarlyConfidence : ℚ :=
  49/50

/-- Model of `calculateFinalConfidence` (pipelines.go): coverage-based,
0.5 + completionRatio * 0.4. -/
def calculateFinalConfidence (stages : List AnalysisStage)
    (results : List (String × GoVal)) : ℚ :=
  1/2 + ((results.length : ℚ) / (stages.length : ℚ)) * (2/5)

/-- The phase-2 loop of `runFullAnalysis` (pipelines.go): skip fast-track
stages that already have a result, attempt each remaining stage, drop
failures and continue, and check parent cancellation only after a stage
that succeeded (the `continue` on a failed stage skips the check, exactly
as in the source). `k` counts attempted stages. -/
def phase2 (env : StageEnv) (canc : CancOracle) :
    List AnalysisStage → List (String × GoVal) → List String → ℕ →
    Except Unit (List (String × GoVal) × List String)
  | [], res, run, _ => Except.ok (res, run)
  | s :: rest, res, run, k =>
    if s.fastTrack && (lookupA res s.name).isSome then
      phase2 env canc rest res run k
    else
      match env s.name with
      | Except.error _ => phase2 env canc rest res run (k + 1)
      | Except.ok v =>
        if canc (k + 1) then Except.error ()
        else phase2 env canc rest (res ++ [(s.name, v)])
          (run ++ [s.name]) (k + 1)

/-- Model of `runFullAnalysis` (pipelines.go): fast-track phase (when early
exit is enabled), early-exit evaluation with fixed 0.98 confidence, then the
full phase-2 loop and the coverage-based final confidence. `processTime` is
filled in by `RunAnalysis`. -/
def runFullAnalysis (stages : List AnalysisStage) (enabled : Bool)
    (env : StageEnv) (canc : CancOracle) : Except Unit PipelineResult :=
  let sorted := getSortedStages stages
  let ft := if enabled then runFastTrackStages env sorted else []
  if enabled && shouldEarlyExit enabled ft then
    Except.ok
      { results := ft, stagesRun := ft.map Prod.fst, processTime := 0,
        earlyExit := true, confidence := calculateEarlyConfidence,
        cacheHit := false }
  else
    match phase2 env canc sorted ft (ft.map Prod.fst) 0 with
    | Except.error e => Except.error e
    | Except.ok (res, run) =>
      Except.ok
        { results := res, stagesRun := run, processTime := 0,
          earlyExit := false,
          confidence := calculateFinalConfidence stages res,
          cacheHit := false }

/-- A cache entry (package cache, embedded in the repository's build files):
stored value with absolute expiry and creation time. The source stores
`interface{}`; the only stored type is `*PipelineResult`, so the model types
the payload directly (the wrong-type branch of `RunAnalysis` is then
unreachable). -/
structure CacheItem where
  data : PipelineResult
  expiresAt : ℕ
  createdAt : ℕ

/-- The model of `AnalysisCache`: fingerprint-keyed entries. Map update is
modelled by a shadowing prepend, observationally equal to assignment under
first-match lookup. The background `cleanup` goroutine is disabled in the
source (commented out), so no eager removal is modelled. -/
def AnalysisCache : Type :=
  List (List ℕ × CacheItem)

/-- First-match lookup on fingerprint keys. -/
def lookupA2 : AnalysisCache → List ℕ → Option CacheItem
  | [], _ => none
  | p :: rest, k => if p.1 = k then some p.2 else lookupA2 rest k

/-- Model of `AnalysisCache.Get`: an entry is returned when it exists and
`now` is not strictly after its expiry (`now.After(expiresAt)` in the
source is strict). -/
def cacheGet (c : AnalysisCache) (key : List ℕ) (now : ℕ) :
    Option PipelineResult :=
  match lookupA2 c key with
  | none => none
  | some item => if now > item.expiresAt then none else some item.data

/-- Model of `AnalysisCache.Set`: store under `key` with expiry
`now + ttl`. -/
def cacheSet (c : AnalysisCache) (key : List ℕ) (data : PipelineResult)
    (now ttl : ℕ) : AnalysisCache :=
  (key, { data := data, expiresAt := now + ttl, createdAt := now }) :: c

/-- SHA-256 over the artifact's bytes, modelled as an injective fingerprint:
collision freeness of the hash is assumed, so the fingerprint is represented
by the byte content itself. Every property proved below uses only that the
fingerprint is a function of the bytes. -/
def contentFingerprint (bytes : List ℕ) : List ℕ :=
  bytes

/-- Model of `generateCacheKey` (pipelines.go): read the artifact's bytes
through the file system `fs` and fingerprint them; the key depends on the
path only through the bytes the path denotes. -/
def generateCacheKey (fs : String → Option (List ℕ)) (path : String) :
    Option (List ℕ) :=
  (fs path).map contentFingerprint

/-- The two fatal error classes of `RunAnalysis`: failure to read or
fingerprint the artifact, and parent-context cancellation. -/
inductive PipelineError where
  | readError : PipelineError
  | cancelled : PipelineError
deriving DecidableEq

/-- The cache TTL used by `RunAnalysis`: 30 minutes, in seconds. -/
def ttl30 : ℕ :=
  1800

/-- Model of `AnalysisPipeline.RunAnalysis` (pipelines.go) for a pipeline
built by `NewAnalysisPipeline` (stage catalog `getDefaultStages`, early exit
configurable via `SetEarlyExitEnabled`): fingerprint, cache probe, on hit a
copy with `cacheHit := true` and the lookup latency as `processTime`, on
miss the full analysis, stored for 30 minutes. `lookupDur` and `compDur`
model the observed wall-clock durations of the two paths. -/
def RunAnalysis (fs : String → Option (List ℕ)) (cache : AnalysisCache)
    (now lookupDur compDur : ℕ) (enabled : Bool) (env : StageEnv)
    (canc : CancOracle) (path : String) :
    Except PipelineError (PipelineResult × AnalysisCache) :=
  match generateCacheKey fs path with
  | none => Except.error PipelineError.readError
  | some key =>
    match cacheGet cache key now with
    | some cached =>
      Except.ok ({ cached with cacheHit := true, processTime := lookupDur },
        cache)
    | none =>
      match runFullAnalysis getDefaultStages enabled env canc with
      | Except.error _ => Except.error PipelineError.cancelled
      | Except.ok res =>
        let res2 := { res with cacheHit := false, processTime := compDur }
        Except.ok (res2, cacheSet cache key res2 now ttl30)

/-- Concrete run instances used to exercise the model on closed inputs. -/
def envAllErr : StageEnv :=
  fun _ => Except.error ()

/-- An environment in which every analyzer returns an empty map. -/
def envAllOkEmpty : StageEnv :=
  fun _ => Except.ok (GoVal.vMap [])

/-- A parent context that is never cancelled. -/
def cancNever : CancOracle :=
  fun _ => false

/-- A parent context that is cancelled from the start of the run. -/
def cancAlways : CancOracle :=
  fun _ => true

/-- An environment in which only the metadata-quick analyzer succeeds,
returning a map with no AI keywords; every other analyzer fails, as the
analyzers of a cancelled context do. -/
def envOnlyQuick : StageEnv :=
  fun n => if n = "metadata-quick" then Except.ok (GoVal.vMap [])
    else Except.error ()

/-- An environment in which the metadata-quick analyzer reports a
generative-AI tool keyword. -/
def envDefinitiveMeta : StageEnv :=
  fun n =>
    if n = "metadata-quick" then
      Except.ok (GoVal.vMap [("Software", GoVal.vStr "Midjourney")])
    else Except.error ()

/-- A minimal one-stage catalog used to exercise the cancellation path. -/
def probeStage : AnalysisStage :=
  { name := "probe", priority := 1, fastTrack := false, timeoutSec := 1,
    dependencies := [] }

/-- A two-path file system on which the paths `a` and `b` hold identical
byte content. -/
def fsW : String → Option (List ℕ) :=
  fun p => if p = "a" then some [7] else if p = "b" then some [7] else none

/-- The pipeline result the all-failing run computes, with the process time
of the first witness call. -/
def resW : PipelineResult :=
  { results := [], stagesRun := [], processTime := 9, earlyExit := false,
    confidence := 1/2, cacheHit := false }

/-- The cache state after the first witness call. -/
def cacheW : AnalysisCache :=
  cacheSet [] (contentFingerprint [7]) resW 0 ttl30

/-- An empty pipeline result used as a cache payload. -/
def emptyResult : PipelineResult :=
  { results := [], stagesRun := [], processTime := 0, earlyExit := false,
    confidence := 0, cacheHit := false }

theorem clamp01_bounds (q : ℚ) : 0 ≤ clamp01 q ∧ clamp01 q ≤ 1 := by
  unfold clamp01
  split_ifs with h1 h2 <;> constructor <;> linarith

theorem cacheGet_set (c : AnalysisCache) (k : List ℕ) (v : PipelineResult)
    (t0 ttl now : ℕ) :
    cacheGet (cacheSet c k v t0 ttl) k now =
      if now ≤ t0 + ttl then some v else none := by
  simp [cacheGet, cacheSet, lookupA2]
  split_ifs with h1 h2 h3 <;> first | rfl | (exfalso; omega)

theorem collect_definitive (l : List (String × GoVal)) (st : AggState) :
    (collect l st).definitive = st.definitive ∨ (collect l st).definitive = 1 := by
  induction l generalizing st with
  | nil => left; rfl
  | cons p rest ih =>
    obtain ⟨pn, pv⟩ := p
    cases h : asMap pv with
    | none =>
      rw [show collect ((pn, pv) :: rest) st = collect rest st by
        simp [collect, h]]
      exact ih st
    | some d =>
      by_cases hs : scoreFor pn d ≥ 0
      · by_cases h1 : pn = "metadata" ∧ scoreFor pn d ≥ 19/20
        · obtain ⟨he, h95⟩ := h1
          subst he
          right
          simp [collect, h, hs, h95]
        · by_cases h2 : pn = "c2pa" ∧ scoreFor pn d ≥ 19/20
          · obtain ⟨he, h95⟩ := h2
            subst he
            right
            simp [collect, h, hs, h95, h1]
          · rw [show collect ((pn, pv) :: rest) st =
                collect rest
                  { st with
                    scores := st.scores ++ [(pn, scoreFor pn d)],
                    cv := if cvMethods.contains pn then
                        st.cv ++ [(pn, scoreFor pn d)]
                      else st.cv,
                    ai := if cvMethods.contains pn then st.ai
                      else if aiMethods.contains pn then
                        st.ai ++ [(pn, scoreFor pn d)]
                      else st.ai } by
              simp [collect, h, hs, h1, h2]]
            exact ih _
      · rw [show collect ((pn, pv) :: rest) st = collect rest st by
          simp [collect, h, hs]]
        exact ih st

theorem clamp01_scaled (x : ℚ) :
    0 ≤ clamp01 x * 100 ∧ clamp01 x * 100 ≤ 100 := by
  have h := clamp01_bounds x
  constructor <;> nlinarith [h.1, h.2]

theorem cov_probability_cases (results : List (String × GoVal)) :
    (CalculateOverallVerdict results).probability = 100 ∨
      (CalculateOverallVerdict results).probability = 0 ∨
      ∃ x, (CalculateOverallVerdict results).probability = clamp01 x * 100 := by
  simp only [CalculateOverallVerdict]
  by_cases hd : (collect results initAgg).definitive ≥ 0
  · rw [if_pos hd]
    left
    have h1 : (collect results initAgg).definitive = 1 := by
      rcases collect_definitive results initAgg with h | h
      · exfalso
        rw [h] at hd
        norm_num [initAgg] at hd
      · exact h
    dsimp only
    rw [h1]
    norm_num
  · rw [if_neg hd]
    by_cases hw : (weightLoop
        (applyBalancedCalibration (collect results initAgg).scores) 0 0
        (collect results initAgg).reasoning).2.1 = 0
    · rw [if_pos hw]
      right; left; rfl
    · rw [if_neg hw]
      right; right
      exact ⟨_, rfl⟩

/-- C6. For every `PipelineResult` given to the aggregator, the final
aggregated score lies in [0,1] (the source reports it multiplied by 100, so
the `probability` field lies in [0,100]), and the discrete verdict label of
`determineBalancedVerdict` is a monotone non-decreasing function of the
final score for a fixed set of per-method scores. -/
theorem c6_final_score_bounds_and_label_monotone :
    (∀ results : List (String × GoVal),
      0 ≤ (CalculateOverallVerdict results).probability ∧
        (CalculateOverallVerdict results).probability ≤ 100) ∧
    (∀ (scores : List (String × ℚ)) (s t : ℚ), s ≤ t →
      verdictRank (determineBalancedVerdict s scores).1 ≤
        verdictRank (determineBalancedVerdict t scores).1) := by
  constructor
  · intro results
    rcases cov_probability_cases results with h | h | ⟨x, h⟩
    · rw [h]; norm_num
    · rw [h]; norm_num
    · rw [h]; exact clamp01_scaled x
  · intro scores s t hst
    simp only [determineBalancedVerdict]
    split_ifs <;> simp [verdictRank] <;> linarith

/-- C8 counterexample. The claim demands that `Get` return not-found as soon
as `now ≥ expiresAt`; but for an entry set at time 0 with TTL 5 (expiry 5),
`Get` at time 5 — where `now ≥ expiresAt` holds — still returns the value,
because the source's expiry test `now.After(expiresAt)` is strict. -/
theorem c8_counterexample_visible_at_expiry :
    cacheGet (cacheSet [] [0] emptyResult 0 5) [0] 5 = some emptyResult ∧
      0 + 5 ≤ 5 := by
  constructor
  · rfl
  · decide

/-- C8 amended. A value stored by `Set(k, v, ttl)` at time `t0` is visible
to `Get(k)` at time `now` if and only if `now` is not strictly after the
expiry `t0 + ttl`; equivalently, `Get` returns not-found exactly once
`now > expiresAt`, whether or not the entry has been physically removed
(the background sweeper is disabled in the source). -/
theorem c8_amended_visible_iff_not_after_expiry
    (c : AnalysisCache) (k : List ℕ) (v : PipelineResult) (t0 ttl now : ℕ) :
    cacheGet (cacheSet c k v t0 ttl) k now =
      if now ≤ t0 + ttl then some v else none :=
  cacheGet_set c k v t0 ttl now

theorem c6_witness :
    verdictRank (determineBalancedVerdict 0 []).1 ≤
      verdictRank (determineBalancedVerdict 1 []).1 :=
  c6_final_score_bounds_and_label_monotone.2 [] 0 1 (by norm_num)

theorem weightOf_metadata : weightOf "metadata" = 5/2 := by
  simp [weightOf, weightsTable, lookupA]

theorem weightOf_c2pa : weightOf "c2pa" = 2 := by
  simp [weightOf, weightsTable, lookupA]

theorem collect_weightless (l : List (String × GoVal)) (st : AggState)
    (hl : ∀ p ∈ l, ∀ d, p.2 = GoVal.vMap d →
      scoreFor p.1 d < 0 ∨ weightOf p.1 = 0)
    (hsc : ∀ q ∈ st.scores, weightOf q.1 = 0) :
    (collect l st).definitive = st.definitive ∧
      ∀ q ∈ (collect l st).scores, weightOf q.1 = 0 := by
  induction l generalizing st with
  | nil => exact ⟨rfl, hsc⟩
  | cons p rest ih =>
    obtain ⟨pn, pv⟩ := p
    have hrest : ∀ p ∈ rest, ∀ d, p.2 = GoVal.vMap d →
        scoreFor p.1 d < 0 ∨ weightOf p.1 = 0 := by
      intro q hq
      exact hl q (List.mem_cons_of_mem _ hq)
    cases h : asMap pv with
    | none =>
      rw [show collect ((pn, pv) :: rest) st = collect rest st by
        simp [collect, h]]
      exact ih st hrest hsc
    | some d =>
      have hpv : pv = GoVal.vMap d := by
        cases pv <;> simp_all [asMap]
      by_cases hs : scoreFor pn d ≥ 0
      · have hw0 : weightOf pn = 0 := by
          rcases hl (pn, pv) (List.mem_cons_self _ _) d hpv with hneg | hz
          · exact absurd hs (not_le.mpr hneg)
          · exact hz
        have hm : ¬(pn = "metadata" ∧ scoreFor pn d ≥ 19/20) := by
          rintro ⟨he, _⟩
          rw [he, weightOf_metadata] at hw0
          norm_num at hw0
        have hc : ¬(pn = "c2pa" ∧ scoreFor pn d ≥ 19/20) := by
          rintro ⟨he, _⟩
          rw [he, weightOf_c2pa] at hw0
          norm_num at hw0
        rw [show collect ((pn, pv) :: rest) st =
            collect rest
              { st with
                scores := st.scores ++ [(pn, scoreFor pn d)],
                cv := if cvMethods.contains pn then
                    st.cv ++ [(pn, scoreFor pn d)]
                  else st.cv,
                ai := if cvMethods.contains pn then st.ai
                  else if aiMethods.contains pn then
                    st.ai ++ [(pn, scoreFor pn d)]
                  else st.ai } by
          simp [collect, h, hs, hm, hc]]
        refine ih _ hrest ?_
        intro q hq
        rcases List.mem_append.mp hq with hq1 | hq2
        · exact hsc q hq1
        · rcases List.mem_singleton.mp hq2 with rfl
          exact hw0
      · rw [show collect ((pn, pv) :: rest) st = collect rest st by
          simp [collect, h, hs]]
        exact ih st hrest hsc

theorem weightLoop_allzero (l : List (String × ℚ)) (ws wt : ℚ)
    (rs : List ReasonLine) (h : ∀ q ∈ l, weightOf q.1 = 0) :
    weightLoop l ws wt rs = (ws, wt, rs) := by
  induction l with
  | nil => rfl
  | cons q rest ih =>
    have h0 : weightOf q.1 = 0 := h q (List.mem_cons_self _ _)
    rw [show weightLoop (q :: rest) ws wt rs = weightLoop rest ws wt rs by
      simp [weightLoop, h0]]
    exact ih (fun p hp => h p (List.mem_cons_of_mem _ hp))

theorem calibration_fst (p : String × ℚ) :
    (match lookupA calibrationFactors p.1 with
      | some f => (p.1, min 1 (p.2 * f))
      | none => p).1 = p.1 := by
  cases h : lookupA calibrationFactors p.1 <;> simp

theorem mem_calibration_weightless (sc : List (String × ℚ))
    (h : ∀ q ∈ sc, weightOf q.1 = 0) :
    ∀ q ∈ applyBalancedCalibration sc, weightOf q.1 = 0 := by
  intro q hq
  rcases List.mem_map.mp hq with ⟨p, hp, hpq⟩
  have h1 : q.1 = p.1 := by
    rw [← hpq]
    exact calibration_fst p
  rw [h1]
  exact h p hp

/-- C7. When zero methods produce a usable (non-negative, positively
weighted) score, the aggregator returns the explicit "Analysis Failed"
verdict with probability and confidence fixed at 0, never a numeric score
derived from the empty input. -/
theorem c7_empty_evidence_analysis_failed (results : List (String × GoVal))
    (h : ∀ p ∈ results, ∀ d, p.2 = GoVal.vMap d →
      scoreFor p.1 d < 0 ∨ weightOf p.1 = 0) :
    (CalculateOverallVerdict results).verdict = "Analysis Failed" ∧
      (CalculateOverallVerdict results).probability = 0 ∧
      (CalculateOverallVerdict results).confidence = 0 := by
  obtain ⟨hdef, hsc⟩ :=
    collect_weightless results initAgg h (by simp [initAgg])
  have hd : ¬(collect results initAgg).definitive ≥ 0 := by
    rw [hdef]
    norm_num [initAgg]
  have hwl : (weightLoop
      (applyBalancedCalibration (collect results initAgg).scores) 0 0
      (collect results initAgg).reasoning).2.1 = 0 := by
    rw [weightLoop_allzero _ 0 0 _ (mem_calibration_weightless _ hsc)]
  simp only [CalculateOverallVerdict]
  rw [if_neg hd, if_pos hwl]
  exact ⟨rfl, rfl, rfl⟩

theorem c7_witness :
    (CalculateOverallVerdict [("exif", GoVal.vMap [])]).verdict =
        "Analysis Failed" ∧
      (CalculateOverallVerdict [("exif", GoVal.vMap [])]).probability = 0 ∧
      (CalculateOverallVerdict [("exif", GoVal.vMap [])]).confidence = 0 :=
  c7_empty_evidence_analysis_failed [("exif", GoVal.vMap [])] (by
    intro p hp d hpd
    rcases List.mem_singleton.mp hp with rfl
    simp only at hpd
    left
    have hd0 : d = [] := by
      cases hpd
      rfl
    rw [hd0]
    norm_num [scoreFor, calculateEXIFScore, lookupA])

theorem collect_scores_nonneg (l : List (String × GoVal)) (st : AggState)
    (hsc : ∀ q ∈ st.scores, 0 ≤ q.2) :
    ∀ q ∈ (collect l st).scores, 0 ≤ q.2 := by
  induction l generalizing st with
  | nil => exact hsc
  | cons p rest ih =>
    obtain ⟨pn, pv⟩ := p
    cases h : asMap pv with
    | none =>
      rw [show collect ((pn, pv) :: rest) st = collect rest st by
        simp [collect, h]]
      exact ih st hsc
    | some d =>
      by_cases hs : scoreFor pn d ≥ 0
      · have hsc1 : ∀ q ∈ st.scores ++ [(pn, scoreFor pn d)], 0 ≤ q.2 := by
          intro q hq
          rcases List.mem_append.mp hq with hq1 | hq2
          · exact hsc q hq1
          · rcases List.mem_singleton.mp hq2 with rfl
            exact hs
        by_cases h1 : pn = "metadata" ∧ scoreFor pn d ≥ 19/20
        · obtain ⟨he, h95⟩ := h1
          subst he
          intro q hq
          rw [show collect (("metadata", pv) :: rest) st =
              { st with
                scores := st.scores ++ [("metadata", scoreFor "metadata" d)],
                cv := if cvMethods.contains "metadata" then
                    st.cv ++ [("metadata", scoreFor "metadata" d)]
                  else st.cv,
                ai := if cvMethods.contains "metadata" then st.ai
                  else if aiMethods.contains "metadata" then
                    st.ai ++ [("metadata", scoreFor "metadata" d)]
                  else st.ai,
                reasoning := st.reasoning ++ [ReasonLine.definitiveMetadata],
                definitive := 1 } by
            simp [collect, h, hs, h95]] at hq
          exact hsc1 q hq
        · by_cases h2 : pn = "c2pa" ∧ scoreFor pn d ≥ 19/20
          · obtain ⟨he, h95⟩ := h2
            subst he
            intro q hq
            rw [show collect (("c2pa", pv) :: rest) st =
                { st with
                  scores := st.scores ++ [("c2pa", scoreFor "c2pa" d)],
                  cv := if cvMethods.contains "c2pa" then
                      st.cv ++ [("c2pa", scoreFor "c2pa" d)]
                    else st.cv,
                  ai := if cvMethods.contains "c2pa" then st.ai
                    else if aiMethods.contains "c2pa" then
                      st.ai ++ [("c2pa", scoreFor "c2pa" d)]
                    else st.ai,
                  reasoning := st.reasoning ++ [ReasonLine.definitiveC2PA],
                  definitive := 1 } by
              simp [collect, h, hs, h95, h1]] at hq
            exact hsc1 q hq
          · rw [show collect ((pn, pv) :: rest) st =
                collect rest
                  { st with
                    scores := st.scores ++ [(pn, scoreFor pn d)],
                    cv := if cvMethods.contains pn then
                        st.cv ++ [(pn, scoreFor pn d)]
                      else st.cv,
                    ai := if cvMethods.contains pn then st.ai
                      else if aiMethods.contains pn then
                        st.ai ++ [(pn, scoreFor pn d)]
                      else st.ai } by
              simp [collect, h, hs, h1, h2]]
            exact ih _ hsc1
      · rw [show collect ((pn, pv) :: rest) st = collect rest st by
          simp [collect, h, hs]]
        exact ih st hsc

theorem cov_scores_eq (results : List (String × GoVal)) :
    (CalculateOverallVerdict results).scores =
      (collect results initAgg).scores := by
  simp only [CalculateOverallVerdict]
  split_ifs <;> rfl

theorem collect_compression_default :
    collect [("compression", GoVal.vMap [])] initAgg =
      { scores := [("compression", 1/2)], cv := [("compression", 1/2)],
        ai := [], reasoning := [], definitive := -1 } := by
  simp [collect, initAgg, asMap, scoreFor, calculateCompressionScore,
    cvMethods, aiMethods, (by norm_num : ((1 : ℚ)/2 ≥ 0)),
    (by norm_num : ¬((1 : ℚ)/2 ≥ 19/20))]

/-- C5 counterexample. The claim asserts that a missing probability field
never silently becomes a numeric score. But `calculateAIModelScore` on a
result without a `probability` field returns the numeric default 0.5, which
the aggregator records as a score; and `calculateCompressionScore` on an
empty compression result likewise defaults to 0.5, which then carries
weight 4.0 in the composite and yields the numeric probability 19 (and not
an absent signal) for an input carrying no probability at all. -/
theorem c5_counterexample_default_scores :
    calculateAIModelScore [] = 1/2 ∧
      (CalculateOverallVerdict [("ai-model", GoVal.vMap [])]).scores =
        [("ai-model", 1/2)] ∧
      (CalculateOverallVerdict [("compression", GoVal.vMap [])]).scores =
        [("compression", 1/2)] ∧
      (CalculateOverallVerdict [("compression", GoVal.vMap [])]).probability
        = 19 := by
  refine ⟨by simp [calculateAIModelScore, getFloatValue, lookupA], ?_, ?_, ?_⟩
  · rw [cov_scores_eq]
    simp [collect, initAgg, asMap, scoreFor, calculateAIModelScore,
      getFloatValue, lookupA, cvMethods, aiMethods,
      (by norm_num : ((1 : ℚ)/2 ≥ 0)),
      (by norm_num : ¬((1 : ℚ)/2 ≥ 19/20))]
  · rw [cov_scores_eq, collect_compression_default]
  · have hcal : applyBalancedCalibration [("compression", (1:ℚ)/2)] =
        [("compression", 1/5)] := by
      simp [applyBalancedCalibration, calibrationFactors, lookupA]
      norm_num
    have hboost : calculateAdvancedBoost [("compression", (1:ℚ)/5)] = 1 := by
      simp [calculateAdvancedBoost, lookupA]
      norm_num
    have hwl : weightLoop [("compression", (1:ℚ)/5)] 0 0 [] =
        (26/25, 26/5, [ReasonLine.authentic "compression" (1/5)]) := by
      simp [weightLoop, weightOf, weightsTable, lookupA,
        (by norm_num : ¬((1 : ℚ)/5 ≥ 4/5)),
        (by norm_num : ((1 : ℚ)/5 ≤ 1/5)),
        (by norm_num : ¬((1 : ℚ)/5 ≥ 7/10)),
        (by norm_num : ((1 : ℚ)/5 ≤ 3/10))]
      norm_num
    simp only [CalculateOverallVerdict, collect_compression_default]
    rw [if_neg (by norm_num), hcal, hboost, hwl]
    rw [if_neg (by norm_num : ¬((26 : ℚ)/5 = 0))]
    have hr1 : ¬(((List.length [("compression", (1:ℚ)/2)] : ℚ)) / 10 ≥ 4/5) := by
      norm_num
    have hr2 : ((List.length [("compression", (1:ℚ)/2)] : ℚ)) / 10 < 1/2 := by
      norm_num
    rw [if_neg hr1, if_pos hr2]
    dsimp only
    norm_num [clamp01]

/-- C5 amended. The Confidence Extractor's no-signal outcome is the sentinel
-1, distinguishable from a genuine score of 0.0, and every stage whose
extraction yields a negative (no-signal) value is excluded entirely from the
aggregator's collected scores and hence from weighting. However — contrary
to the original claim's final clause — several per-stage extractors
substitute a fixed numeric default when the probability field is missing:
ai-model and compression both map a missing probability to 0.5. -/
theorem c5_amended_sentinel_and_defaults :
    extractConfidenceScore (GoVal.vMap []) = -1 ∧
      extractConfidenceScore
        (GoVal.vMap [("ai_color_score", GoVal.vFloat 0)]) = 0 ∧
      (∀ (results : List (String × GoVal)) (q : String × ℚ),
        q ∈ (CalculateOverallVerdict results).scores → 0 ≤ q.2) ∧
      calculateAIModelScore [] = 1/2 ∧ calculateCompressionScore [] = 1/2 := by
  refine ⟨?_, ?_, ?_, ?_, ?_⟩
  · simp [extractConfidenceScore, asMap, lookupFloat, lookupMap, lookupA]
  · simp [extractConfidenceScore, asMap, lookupFloat, lookupMap, lookupA,
      Option.orElse]
  · intro results q hq
    rw [cov_scores_eq] at hq
    exact collect_scores_nonneg results initAgg (by simp [initAgg]) q hq
  · simp [calculateAIModelScore, getFloatValue, lookupA]
  · simp [calculateCompressionScore, lookupA]

theorem c5_amended_witness :
    ("color-balance", (1 : ℚ)) ∈
        (CalculateOverallVerdict
          [("color-balance",
            GoVal.vMap [("ai_color_score", GoVal.vFloat 1)])]).scores ∧
      (0 : ℚ) ≤ 1 := by
  have hmem : ("color-balance", (1 : ℚ)) ∈
      (CalculateOverallVerdict
        [("color-balance",
          GoVal.vMap [("ai_color_score", GoVal.vFloat 1)])]).scores := by
    rw [cov_scores_eq]
    simp [collect, initAgg, asMap, scoreFor, calculateColorBalanceScore,
      getFloatValue, lookupA, cvMethods, aiMethods,
      (by norm_num : ((1 : ℚ) ≥ 0))]
  exact ⟨hmem,
    c5_amended_sentinel_and_defaults.2.2.1
      [("color-balance", GoVal.vMap [("ai_color_score", GoVal.vFloat 1)])]
      ("color-balance", 1) hmem⟩

theorem collect_skip (name : String) (v : GoVal) (l : List (String × GoVal))
    (st : AggState) (hv : asMap v = none) :
    collect ((name, v) :: l) st = collect l st := by
  simp [collect, hv]

theorem collect_append_of_no_break (A B : List (String × GoVal))
    (st : AggState) (h : (collect A st).definitive = -1) :
    collect (A ++ B) st = collect B (collect A st) := by
  induction A generalizing st with
  | nil => rfl
  | cons p A2 ih =>
    obtain ⟨pn, pv⟩ := p
    cases hm : asMap pv with
    | none =>
      rw [show ((pn, pv) :: A2) ++ B = (pn, pv) :: (A2 ++ B) by rfl,
        collect_skip pn pv (A2 ++ B) st hm]
      rw [collect_skip pn pv A2 st hm] at h ⊢
      exact ih st h
    | some d =>
      by_cases hs : scoreFor pn d ≥ 0
      · by_cases h1 : pn = "metadata" ∧ scoreFor pn d ≥ 19/20
        · exfalso
          obtain ⟨he, h95⟩ := h1
          subst he
          rw [show collect (("metadata", pv) :: A2) st =
              { st with
                scores := st.scores ++
                  [("metadata", scoreFor "metadata" d)],
                cv := if cvMethods.contains "metadata" then
                    st.cv ++ [("metadata", scoreFor "metadata" d)]
                  else st.cv,
                ai := if cvMethods.contains "metadata" then st.ai
                  else if aiMethods.contains "metadata" then
                    st.ai ++ [("metadata", scoreFor "metadata" d)]
                  else st.ai,
                reasoning := st.reasoning ++ [ReasonLine.definitiveMetadata],
                definitive := 1 } by
            simp [collect, hm, hs, h95]] at h
          norm_num at h
        · by_cases h2 : pn = "c2pa" ∧ scoreFor pn d ≥ 19/20
          · exfalso
            obtain ⟨he, h95⟩ := h2
            subst he
            rw [show collect (("c2pa", pv) :: A2) st =
                { st with
                  scores := st.scores ++ [("c2pa", scoreFor "c2pa" d)],
                  cv := if cvMethods.contains "c2pa" then
                      st.cv ++ [("c2pa", scoreFor "c2pa" d)]
                    else st.cv,
                  ai := if cvMethods.contains "c2pa" then st.ai
                    else if aiMethods.contains "c2pa" then
                      st.ai ++ [("c2pa", scoreFor "c2pa" d)]
                    else st.ai,
                  reasoning := st.reasoning ++ [ReasonLine.definitiveC2PA],
                  definitive := 1 } by
              simp [collect, hm, hs, h95, h1]] at h
            norm_num at h
          · have hstep : ∀ L : List (String × GoVal),
                collect ((pn, pv) :: L) st =
                  collect L
                    { st with
                      scores := st.scores ++ [(pn, scoreFor pn d)],
                      cv := if cvMethods.contains pn then
                          st.cv ++ [(pn, scoreFor pn d)]
                        else st.cv,
                      ai := if cvMethods.contains pn then st.ai
                        else if aiMethods.contains pn then
                          st.ai ++ [(pn, scoreFor pn d)]
                        else st.ai } := by
              intro L
              simp [collect, hm, hs, h1, h2]
            rw [show ((pn, pv) :: A2) ++ B = (pn, pv) :: (A2 ++ B) by rfl,
              hstep (A2 ++ B)]
            rw [hstep A2] at h ⊢
            exact ih _ h
      · rw [show ((pn, pv) :: A2) ++ B = (pn, pv) :: (A2 ++ B) by rfl,
          show collect ((pn, pv) :: (A2 ++ B)) st = collect (A2 ++ B) st by
            simp [collect, hm, hs]]
        rw [show collect ((pn, pv) :: A2) st = collect A2 st by
          simp [collect, hm, hs]] at h ⊢
        exact ih st h

theorem collect_append_of_break (A B : List (String × GoVal))
    (st : AggState) (h0 : st.definitive = -1)
    (h : (collect A st).definitive ≥ 0) :
    collect (A ++ B) st = collect A st := by
  induction A generalizing st with
  | nil =>
    exfalso
    rw [show (collect [] st).definitive = st.definitive from rfl, h0] at h
    norm_num at h
  | cons p A2 ih =>
    obtain ⟨pn, pv⟩ := p
    cases hm : asMap pv with
    | none =>
      rw [show ((pn, pv) :: A2) ++ B = (pn, pv) :: (A2 ++ B) by rfl,
        collect_skip pn pv (A2 ++ B) st hm, collect_skip pn pv A2 st hm]
      rw [collect_skip pn pv A2 st hm] at h
      exact ih st h0 h
    | some d =>
      by_cases hs : scoreFor pn d ≥ 0
      · by_cases h1 : pn = "metadata" ∧ scoreFor pn d ≥ 19/20
        · obtain ⟨he, h95⟩ := h1
          subst he
          have hbreak : ∀ L : List (String × GoVal),
              collect (("metadata", pv) :: L) st =
                { st with
                  scores := st.scores ++
                    [("metadata", scoreFor "metadata" d)],
                  cv := if cvMethods.contains "metadata" then
                      st.cv ++ [("metadata", scoreFor "metadata" d)]
                    else st.cv,
                  ai := if cvMethods.contains "metadata" then st.ai
                    else if aiMethods.contains "metadata" then
                      st.ai ++ [("metadata", scoreFor "metadata" d)]
                    else st.ai,
                  reasoning := st.reasoning ++
                    [ReasonLine.definitiveMetadata],
                  definitive := 1 } := by
            intro L
            simp [collect, hm, hs, h95]
          rw [show (("metadata", pv) :: A2) ++ B =
              ("metadata", pv) :: (A2 ++ B) by rfl,
            hbreak (A2 ++ B), hbreak A2]
        · by_cases h2 : pn = "c2pa" ∧ scoreFor pn d ≥ 19/20
          · obtain ⟨he, h95⟩ := h2
            subst he
            have hbreak : ∀ L : List (String × GoVal),
                collect (("c2pa", pv) :: L) st =
                  { st with
                    scores := st.scores ++ [("c2pa", scoreFor "c2pa" d)],
                    cv := if cvMethods.contains "c2pa" then
                        st.cv ++ [("c2pa", scoreFor "c2pa" d)]
                      else st.cv,
                    ai := if cvMethods.contains "c2pa" then st.ai
                      else if aiMethods.contains "c2pa" then
                        st.ai ++ [("c2pa", scoreFor "c2pa" d)]
                      else st.ai,
                    reasoning := st.reasoning ++
                      [ReasonLine.definitiveC2PA],
                    definitive := 1 } := by
              intro L
              simp [collect, hm, hs, h95, h1]
            rw [show (("c2pa", pv) :: A2) ++ B =
                ("c2pa", pv) :: (A2 ++ B) by rfl,
              hbreak (A2 ++ B), hbreak A2]
          · have hstep : ∀ L : List (String × GoVal),
                collect ((pn, pv) :: L) st =
                  collect L
                    { st with
                      scores := st.scores ++ [(pn, scoreFor pn d)],
                      cv := if cvMethods.contains pn then
                          st.cv ++ [(pn, scoreFor pn d)]
                        else st.cv,
                      ai := if cvMethods.contains pn then st.ai
                        else if aiMethods.contains pn then
                          st.ai ++ [(pn, scoreFor pn d)]
                        else st.ai } := by
              intro L
              simp [collect, hm, hs, h1, h2]
            rw [show ((pn, pv) :: A2) ++ B = (pn, pv) :: (A2 ++ B) by rfl,
              hstep (A2 ++ B), hstep A2]
            rw [hstep A2] at h
            exact ih _ h0 h
      · rw [show ((pn, pv) :: A2) ++ B = (pn, pv) :: (A2 ++ B) by rfl,
          show collect ((pn, pv) :: (A2 ++ B)) st = collect (A2 ++ B) st by
            simp [collect, hm, hs],
          show collect ((pn, pv) :: A2) st = collect A2 st by
            simp [collect, hm, hs]]
        rw [show collect ((pn, pv) :: A2) st = collect A2 st by
          simp [collect, hm, hs]] at h
        exact ih st h0 h

theorem collect_drop_nonmap (pre post : List (String × GoVal))
    (name : String) (v : GoVal) (hv : asMap v = none) :
    collect (pre ++ (name, v) :: post) initAgg =
      collect (pre ++ post) initAgg := by
  rcases collect_definitive pre initAgg with h | h
  · rw [show initAgg.definitive = -1 from rfl] at h
    rw [collect_append_of_no_break pre ((name, v) :: post) initAgg h,
      collect_skip name v post (collect pre initAgg) hv,
      collect_append_of_no_break pre post initAgg h]
  · have hge : (collect pre initAgg).definitive ≥ 0 := by
      rw [h]
      norm_num
    rw [collect_append_of_break pre ((name, v) :: post) initAgg rfl hge,
      collect_append_of_break pre post initAgg rfl hge]

/-- C10. A `resultsByStage` entry whose value is not a string-keyed map (for
example the typed `*EXIFData` struct the exif analyzer returns, `vOther` in
the model) is skipped entirely by the aggregator: it contributes no score,
no category membership and no reasoning line, and verdict, probability and
confidence are computed exactly as if the entry were absent. -/
theorem c10_nonmap_entry_ignored (pre post : List (String × GoVal))
    (name : String) (v : GoVal) (hv : asMap v = none) :
    (CalculateOverallVerdict (pre ++ (name, v) :: post)).verdict =
        (CalculateOverallVerdict (pre ++ post)).verdict ∧
      (CalculateOverallVerdict (pre ++ (name, v) :: post)).probability =
        (CalculateOverallVerdict (pre ++ post)).probability ∧
      (CalculateOverallVerdict (pre ++ (name, v) :: post)).confidence =
        (CalculateOverallVerdict (pre ++ post)).confidence ∧
      (CalculateOverallVerdict (pre ++ (name, v) :: post)).reasoning =
        (CalculateOverallVerdict (pre ++ post)).reasoning ∧
      (CalculateOverallVerdict (pre ++ (name, v) :: post)).scores =
        (CalculateOverallVerdict (pre ++ post)).scores ∧
      (CalculateOverallVerdict (pre ++ (name, v) :: post)).cvScores =
        (CalculateOverallVerdict (pre ++ post)).cvScores ∧
      (CalculateOverallVerdict (pre ++ (name, v) :: post)).aiScores =
        (CalculateOverallVerdict (pre ++ post)).aiScores := by
  have hc := collect_drop_nonmap pre post name v hv
  simp only [CalculateOverallVerdict, hc]
  split_ifs <;>
    exact ⟨rfl, rfl, rfl, rfl, rfl, rfl, rfl⟩

theorem c10_witness :
    (CalculateOverallVerdict [("exif", GoVal.vOther)]).verdict =
        (CalculateOverallVerdict []).verdict ∧
      (CalculateOverallVerdict [("exif", GoVal.vOther)]).probability =
        (CalculateOverallVerdict []).probability ∧
      (CalculateOverallVerdict [("exif", GoVal.vOther)]).confidence =
        (CalculateOverallVerdict []).confidence ∧
      (CalculateOverallVerdict [("exif", GoVal.vOther)]).reasoning =
        (CalculateOverallVerdict []).reasoning ∧
      (CalculateOverallVerdict [("exif", GoVal.vOther)]).scores =
        (CalculateOverallVerdict []).scores ∧
      (CalculateOverallVerdict [("exif", GoVal.vOther)]).cvScores =
        (CalculateOverallVerdict []).cvScores ∧
      (CalculateOverallVerdict [("exif", GoVal.vOther)]).aiScores =
        (CalculateOverallVerdict []).aiScores :=
  c10_nonmap_entry_ignored [] [] "exif" GoVal.vOther rfl

theorem weightOf_aimodel : weightOf "ai-model" = 6 := by
  simp [weightOf, weightsTable, lookupA]

theorem weightLoop_filter_aimodel (l : List (String × ℚ)) (ws wt : ℚ)
    (rs : List ReasonLine) :
    weightLoop l ws wt rs =
      weightLoop (List.filter (fun p => decide (p.1 ≠ "ai-model")) l)
        ws wt rs := by
  induction l generalizing ws wt rs with
  | nil => rfl
  | cons p rest ih =>
    by_cases hp : p.1 = "ai-model"
    · have hw6 : ¬weightOf p.1 = 0 := by
        rw [hp, weightOf_aimodel]
        norm_num
      rw [show weightLoop (p :: rest) ws wt rs = weightLoop rest ws wt rs by
          simp [weightLoop, hw6, hp],
        show List.filter (fun p => decide (p.1 ≠ "ai-model")) (p :: rest) =
            List.filter (fun p => decide (p.1 ≠ "ai-model")) rest by
          simp [List.filter_cons, hp]]
      exact ih ws wt rs
    · rw [show List.filter (fun p => decide (p.1 ≠ "ai-model")) (p :: rest) =
          p :: List.filter (fun p => decide (p.1 ≠ "ai-model")) rest by
        simp [List.filter_cons, hp]]
      by_cases hw : weightOf p.1 = 0
      · rw [show weightLoop (p :: rest) ws wt rs =
            weightLoop rest ws wt rs by simp [weightLoop, hw],
          show weightLoop
              (p :: List.filter (fun p => decide (p.1 ≠ "ai-model")) rest)
              ws wt rs =
            weightLoop (List.filter (fun p => decide (p.1 ≠ "ai-model")) rest)
              ws wt rs by simp [weightLoop, hw]]
        exact ih ws wt rs
      · rw [show weightLoop (p :: rest) ws wt rs =
            weightLoop rest
              (ws + p.2 * (if p.2 ≥ 4/5 then weightOf p.1 * (6/5)
                else if p.2 ≤ 1/5 then weightOf p.1 * (13/10)
                else weightOf p.1))
              (wt + (if p.2 ≥ 4/5 then weightOf p.1 * (6/5)
                else if p.2 ≤ 1/5 then weightOf p.1 * (13/10)
                else weightOf p.1))
              (rs ++ [if p.2 ≥ 7/10 then ReasonLine.strongAI p.1 p.2
                else if p.2 ≤ 3/10 then ReasonLine.authentic p.1 p.2
                else ReasonLine.moderate p.1 p.2]) by
            simp [weightLoop, hw, hp],
          show weightLoop
              (p :: List.filter (fun p => decide (p.1 ≠ "ai-model")) rest)
              ws wt rs =
            weightLoop (List.filter (fun p => decide (p.1 ≠ "ai-model")) rest)
              (ws + p.2 * (if p.2 ≥ 4/5 then weightOf p.1 * (6/5)
                else if p.2 ≤ 1/5 then weightOf p.1 * (13/10)
                else weightOf p.1))
              (wt + (if p.2 ≥ 4/5 then weightOf p.1 * (6/5)
                else if p.2 ≤ 1/5 then weightOf p.1 * (13/10)
                else weightOf p.1))
              (rs ++ [if p.2 ≥ 7/10 then ReasonLine.strongAI p.1 p.2
                else if p.2 ≤ 3/10 then ReasonLine.authentic p.1 p.2
                else ReasonLine.moderate p.1 p.2]) by
            simp [weightLoop, hw, hp]]
        exact ih _ _ _

theorem collect_ai_both (post : List (String × GoVal)) (s t : ℚ)
    (u : List (String × ℚ)) (ua : List (String × ℚ)) :
    ∀ (w cvl wa : List (String × ℚ)) (rs : List ReasonLine) (df : ℚ),
    ∃ w2 cv2 wa2 rs2 df2,
      collect post
        { scores := u ++ ("ai-model", s) :: w, cv := cvl,
          ai := ua ++ ("ai-model", s) :: wa, reasoning := rs,
          definitive := df } =
        { scores := u ++ ("ai-model", s) :: w2, cv := cv2,
          ai := ua ++ ("ai-model", s) :: wa2, reasoning := rs2,
          definitive := df2 } ∧
      collect post
        { scores := u ++ ("ai-model", t) :: w, cv := cvl,
          ai := ua ++ ("ai-model", t) :: wa, reasoning := rs,
          definitive := df } =
        { scores := u ++ ("ai-model", t) :: w2, cv := cv2,
          ai := ua ++ ("ai-model", t) :: wa2, reasoning := rs2,
          definitive := df2 } := by
  induction post with
  | nil =>
    intro w cvl wa rs df
    exact ⟨w, cvl, wa, rs, df, rfl, rfl⟩
  | cons p rest ih =>
    intro w cvl wa rs df
    obtain ⟨pn, pv⟩ := p
    cases hm : asMap pv with
    | none =>
      rw [collect_skip pn pv rest _ hm, collect_skip pn pv rest _ hm]
      exact ih w cvl wa rs df
    | some d =>
      by_cases hs : scoreFor pn d ≥ 0
      · by_cases h1 : pn = "metadata" ∧ scoreFor pn d ≥ 19/20
        · obtain ⟨he, h95⟩ := h1
          subst he
          have hbreak : ∀ (z : ℚ) (w0 wa0 : List (String × ℚ)),
              collect (("metadata", pv) :: rest)
                { scores := u ++ ("ai-model", z) :: w0, cv := cvl,
                  ai := ua ++ ("ai-model", z) :: wa0, reasoning := rs,
                  definitive := df } =
                { scores := u ++ ("ai-model", z) ::
                    (w0 ++ [("metadata", scoreFor "metadata" d)]),
                  cv := if cvMethods.contains "metadata" then
                      cvl ++ [("metadata", scoreFor "metadata" d)]
                    else cvl,
                  ai := ua ++ ("ai-model", z) ::
                    (if cvMethods.contains "metadata" then wa0
                      else if aiMethods.contains "metadata" then
                        wa0 ++ [("metadata", scoreFor "metadata" d)]
                      else wa0),
                  reasoning := rs ++ [ReasonLine.definitiveMetadata],
                  definitive := 1 } := by
            intro z w0 wa0
            simp [collect, hm, hs, h95]
            split_ifs <;> simp
          exact ⟨w ++ [("metadata", scoreFor "metadata" d)], _, _, _, _,
            hbreak s w wa, hbreak t w wa⟩
        · by_cases h2 : pn = "c2pa" ∧ scoreFor pn d ≥ 19/20
          · obtain ⟨he, h95⟩ := h2
            subst he
            have hbreak : ∀ (z : ℚ) (w0 wa0 : List (String × ℚ)),
                collect (("c2pa", pv) :: rest)
                  { scores := u ++ ("ai-model", z) :: w0, cv := cvl,
                    ai := ua ++ ("ai-model", z) :: wa0, reasoning := rs,
                    definitive := df } =
                  { scores := u ++ ("ai-model", z) ::
                      (w0 ++ [("c2pa", scoreFor "c2pa" d)]),
                    cv := if cvMethods.contains "c2pa" then
                        cvl ++ [("c2pa", scoreFor "c2pa" d)]
                      else cvl,
                    ai := ua ++ ("ai-model", z) ::
                      (if cvMethods.contains "c2pa" then wa0
                        else if aiMethods.contains "c2pa" then
                          wa0 ++ [("c2pa", scoreFor "c2pa" d)]
                        else wa0),
                    reasoning := rs ++ [ReasonLine.definitiveC2PA],
                    definitive := 1 } := by
              intro z w0 wa0
              simp [collect, hm, hs, h95, h1]
              split_ifs <;> simp
            exact ⟨w ++ [("c2pa", scoreFor "c2pa" d)], _, _, _, _,
              hbreak s w wa, hbreak t w wa⟩
          · have hstep : ∀ (z : ℚ) (w0 wa0 : List (String × ℚ)),
                collect ((pn, pv) :: rest)
                  { scores := u ++ ("ai-model", z) :: w0, cv := cvl,
                    ai := ua ++ ("ai-model", z) :: wa0, reasoning := rs,
                    definitive := df } =
                  collect rest
                    { scores := u ++ ("ai-model", z) ::
                        (w0 ++ [(pn, scoreFor pn d)]),
                      cv := if cvMethods.contains pn then
                          cvl ++ [(pn, scoreFor pn d)]
                        else cvl,
                      ai := ua ++ ("ai-model", z) ::
                        (if cvMethods.contains pn then wa0
                          else if aiMethods.contains pn then
                            wa0 ++ [(pn, scoreFor pn d)]
                          else wa0),
                      reasoning := rs, definitive := df } := by
              intro z w0 wa0
              rw [show collect ((pn, pv) :: rest)
                  { scores := u ++ ("ai-model", z) :: w0, cv := cvl,
                    ai := ua ++ ("ai-model", z) :: wa0, reasoning := rs,
                    definitive := df } =
                  collect rest
                    { scores := (u ++ ("ai-model", z) :: w0) ++
                        [(pn, scoreFor pn d)],
                      cv := if cvMethods.contains pn then
                          cvl ++ [(pn, scoreFor pn d)]
                        else cvl,
                      ai := if cvMethods.contains pn then
                          ua ++ ("ai-model", z) :: wa0
                        else if aiMethods.contains pn then
                          (ua ++ ("ai-model", z) :: wa0) ++
                            [(pn, scoreFor pn d)]
                        else ua ++ ("ai-model", z) :: wa0,
                      reasoning := rs, definitive := df } by
                simp [collect, hm, hs, h1, h2]]
              refine congrArg _ ?_
              simp only [AggState.mk.injEq]
              refine ⟨by simp, ?_, ?_, ?_, ?_⟩ <;>
                first
                  | trivial
                  | rfl
                  | (split_ifs <;> simp)
            obtain ⟨w2, cv2, wa2, rs2, df2, hA, hB⟩ :=
              ih (w ++ [(pn, scoreFor pn d)])
                (if cvMethods.contains pn then cvl ++ [(pn, scoreFor pn d)]
                  else cvl)
                (if cvMethods.contains pn then wa
                  else if aiMethods.contains pn then
                    wa ++ [(pn, scoreFor pn d)]
                  else wa)
                rs df
            exact ⟨w2, cv2, wa2, rs2, df2,
              by rw [hstep s w wa]; exact hA,
              by rw [hstep t w wa]; exact hB⟩
      · rw [show collect ((pn, pv) :: rest)
            { scores := u ++ ("ai-model", s) :: w, cv := cvl,
              ai := ua ++ ("ai-model", s) :: wa, reasoning := rs,
              definitive := df } =
            collect rest
              { scores := u ++ ("ai-model", s) :: w, cv := cvl,
                ai := ua ++ ("ai-model", s) :: wa, reasoning := rs,
                definitive := df } by simp [collect, hm, hs],
          show collect ((pn, pv) :: rest)
            { scores := u ++ ("ai-model", t) :: w, cv := cvl,
              ai := ua ++ ("ai-model", t) :: wa, reasoning := rs,
              definitive := df } =
            collect rest
              { scores := u ++ ("ai-model", t) :: w, cv := cvl,
                ai := ua ++ ("ai-model", t) :: wa, reasoning := rs,
                definitive := df } by simp [collect, hm, hs]]
        exact ih w cvl wa rs df

theorem dbv_label_of_length (s : ℚ) (l l2 : List (String × ℚ))
    (h : l.length = l2.length) :
    (determineBalancedVerdict s l).1 = (determineBalancedVerdict s l2).1 := by
  simp only [determineBalancedVerdict]
  rw [h]
  split_ifs <;> rfl

theorem cov_of_states_eq (r1 r2 : List (String × GoVal))
    (hlen : r1.length = r2.length)
    (h : collect r1 initAgg = collect r2 initAgg) :
    CalculateOverallVerdict r1 = CalculateOverallVerdict r2 := by
  simp only [CalculateOverallVerdict, h, hlen]

theorem collect_ai_step (pre post : List (String × GoVal))
    (dd : List (String × GoVal)) (hdd : 0 ≤ calculateAIModelScore dd)
    (hdef : (collect pre initAgg).definitive = -1) :
    collect (pre ++ ("ai-model", GoVal.vMap dd) :: post) initAgg =
      collect post
        { scores := (collect pre initAgg).scores ++
            [("ai-model", calculateAIModelScore dd)],
          cv := (collect pre initAgg).cv,
          ai := (collect pre initAgg).ai ++
            [("ai-model", calculateAIModelScore dd)],
          reasoning := (collect pre initAgg).reasoning,
          definitive := (collect pre initAgg).definitive } := by
  rw [collect_append_of_no_break pre _ initAgg hdef]
  have hsF : scoreFor "ai-model" dd = calculateAIModelScore dd := rfl
  simp [collect, asMap, hsF, hdd, cvMethods, aiMethods]

/-- C9. For runs that do not hit the definitive-evidence short-circuit, the
ai-model stage's calibrated score contributes nothing to the weighted
composite base score: the weighting loop skips every ai-model entry (its
term is dropped from the weighted sum and its weight from the weight
total), even though the weight table assigns ai-model the largest weight
6.0; for a fixed pipeline result shape, the ai-model score's value
influences the final probability and verdict label only through the
pattern-boost factor — two runs differing only in the ai-model score value
but with equal advanced-boost yield the same probability and verdict. -/
theorem c9_aimodel_excluded_from_base_score :
    (weightOf "ai-model" = 6 ∧ ∀ p ∈ weightsTable, p.2 ≤ 6) ∧
      (∀ (l : List (String × ℚ)) (ws wt : ℚ) (rs : List ReasonLine),
        weightLoop l ws wt rs =
          weightLoop (List.filter (fun p => decide (p.1 ≠ "ai-model")) l)
            ws wt rs) ∧
      (∀ (pre post d d2 : List (String × GoVal)),
        0 ≤ calculateAIModelScore d → 0 ≤ calculateAIModelScore d2 →
        calculateAdvancedBoost (applyBalancedCalibration
            ((collect (pre ++ ("ai-model", GoVal.vMap d) :: post)
              initAgg).scores)) =
          calculateAdvancedBoost (applyBalancedCalibration
            ((collect (pre ++ ("ai-model", GoVal.vMap d2) :: post)
              initAgg).scores)) →
        (CalculateOverallVerdict
            (pre ++ ("ai-model", GoVal.vMap d) :: post)).probability =
            (CalculateOverallVerdict
              (pre ++ ("ai-model", GoVal.vMap d2) :: post)).probability ∧
          (CalculateOverallVerdict
              (pre ++ ("ai-model", GoVal.vMap d) :: post)).verdict =
            (CalculateOverallVerdict
              (pre ++ ("ai-model", GoVal.vMap d2) :: post)).verdict) := by
  refine ⟨⟨weightOf_aimodel, ?_⟩, weightLoop_filter_aimodel, ?_⟩
  · intro p hp
    fin_cases hp <;> norm_num
  · intro pre post d d2 hd hd2 hboost
    rcases collect_definitive pre initAgg with hdefp | hdefp
    · have hdef : (collect pre initAgg).definitive = -1 := hdefp
      have hA0 := collect_ai_step pre post d hd hdef
      have hB0 := collect_ai_step pre post d2 hd2 hdef
      obtain ⟨w2, cv2, wa2, rs2, df2, hA1, hB1⟩ :=
        collect_ai_both post (calculateAIModelScore d)
          (calculateAIModelScore d2) (collect pre initAgg).scores
          (collect pre initAgg).ai [] (collect pre initAgg).cv []
          (collect pre initAgg).reasoning (collect pre initAgg).definitive
      have hA : collect (pre ++ ("ai-model", GoVal.vMap d) :: post) initAgg =
          { scores := (collect pre initAgg).scores ++
              ("ai-model", calculateAIModelScore d) :: w2,
            cv := cv2,
            ai := (collect pre initAgg).ai ++
              ("ai-model", calculateAIModelScore d) :: wa2,
            reasoning := rs2, definitive := df2 } := by
        rw [hA0]
        exact hA1
      have hB : collect (pre ++ ("ai-model", GoVal.vMap d2) :: post)
          initAgg =
          { scores := (collect pre initAgg).scores ++
              ("ai-model", calculateAIModelScore d2) :: w2,
            cv := cv2,
            ai := (collect pre initAgg).ai ++
              ("ai-model", calculateAIModelScore d2) :: wa2,
            reasoning := rs2, definitive := df2 } := by
        rw [hB0]
        exact hB1
      rw [hA, hB] at hboost
      have hboost2 : calculateAdvancedBoost (applyBalancedCalibration
            ((collect pre initAgg).scores ++
              ("ai-model", calculateAIModelScore d) :: w2)) =
          calculateAdvancedBoost (applyBalancedCalibration
            ((collect pre initAgg).scores ++
              ("ai-model", calculateAIModelScore d2) :: w2)) := hboost
      have hcalA : applyBalancedCalibration
          ((collect pre initAgg).scores ++
            ("ai-model", calculateAIModelScore d) :: w2) =
          applyBalancedCalibration (collect pre initAgg).scores ++
            ("ai-model", min 1 (calculateAIModelScore d * 1)) ::
              applyBalancedCalibration w2 := by
        simp [applyBalancedCalibration, calibrationFactors, lookupA]
      have hcalB : applyBalancedCalibration
          ((collect pre initAgg).scores ++
            ("ai-model", calculateAIModelScore d2) :: w2) =
          applyBalancedCalibration (collect pre initAgg).scores ++
            ("ai-model", min 1 (calculateAIModelScore d2 * 1)) ::
              applyBalancedCalibration w2 := by
        simp [applyBalancedCalibration, calibrationFactors, lookupA]
      have hWL : weightLoop (applyBalancedCalibration
            ((collect pre initAgg).scores ++
              ("ai-model", calculateAIModelScore d) :: w2)) 0 0 rs2 =
          weightLoop (applyBalancedCalibration
            ((collect pre initAgg).scores ++
              ("ai-model", calculateAIModelScore d2) :: w2)) 0 0 rs2 := by
        rw [weightLoop_filter_aimodel, hcalA,
          show weightLoop (applyBalancedCalibration
              ((collect pre initAgg).scores ++
                ("ai-model", calculateAIModelScore d2) :: w2)) 0 0 rs2 =
            weightLoop (List.filter (fun p => decide (p.1 ≠ "ai-model"))
              (applyBalancedCalibration
                ((collect pre initAgg).scores ++
                  ("ai-model", calculateAIModelScore d2) :: w2))) 0 0 rs2
            from weightLoop_filter_aimodel _ 0 0 rs2, hcalB]
        simp [List.filter_append, List.filter_cons]
      have hlen2 : ((collect pre initAgg).scores ++
            ("ai-model", calculateAIModelScore d) :: w2).length =
          ((collect pre initAgg).scores ++
            ("ai-model", calculateAIModelScore d2) :: w2).length := by
        simp
      simp only [CalculateOverallVerdict, hA, hB]
      by_cases hdf : df2 ≥ 0
      · rw [if_pos hdf, if_pos hdf]
        exact ⟨rfl, rfl⟩
      · rw [if_neg hdf, if_neg hdf]
        by_cases hw : (weightLoop (applyBalancedCalibration
            ((collect pre initAgg).scores ++
              ("ai-model", calculateAIModelScore d) :: w2)) 0 0 rs2).2.1 = 0
        · have hw2 : (weightLoop (applyBalancedCalibration
              ((collect pre initAgg).scores ++
                ("ai-model", calculateAIModelScore d2) :: w2))
              0 0 rs2).2.1 = 0 := by
            rw [← hWL]
            exact hw
          rw [if_pos hw, if_pos hw2]
          exact ⟨rfl, rfl⟩
        · have hw2 : ¬(weightLoop (applyBalancedCalibration
              ((collect pre initAgg).scores ++
                ("ai-model", calculateAIModelScore d2) :: w2))
              0 0 rs2).2.1 = 0 := by
            rw [← hWL]
            exact hw
          rw [if_neg hw, if_neg hw2]
          constructor
          · rw [hWL, hboost2, hlen2]
          · rw [hWL, hboost2, hlen2]
            exact dbv_label_of_length _ _ _ (by rw [hcalA, hcalB]; simp)
    · have hge : (collect pre initAgg).definitive ≥ 0 := by
        rw [hdefp]
        norm_num
      have h1 := collect_append_of_break pre
        (("ai-model", GoVal.vMap d) :: post) initAgg rfl hge
      have h2 := collect_append_of_break pre
        (("ai-model", GoVal.vMap d2) :: post) initAgg rfl hge
      have hcov := cov_of_states_eq
        (pre ++ ("ai-model", GoVal.vMap d) :: post)
        (pre ++ ("ai-model", GoVal.vMap d2) :: post)
        (by simp) (by rw [h1, h2])
      exact ⟨by rw [hcov], by rw [hcov]⟩

theorem collect_ai_probe (q : ℚ) (hq : 0 ≤ q) (hq95 : ¬q ≥ 19/20) :
    collect [("ai-model", GoVal.vMap [("probability", GoVal.vFloat q)])]
      initAgg =
      { scores := [("ai-model", q)], cv := [], ai := [("ai-model", q)],
        reasoning := [], definitive := -1 } := by
  simp [collect, initAgg, asMap, scoreFor, calculateAIModelScore,
    getFloatValue, lookupA, cvMethods, aiMethods, hq, hq95]

theorem c9_witness :
    (CalculateOverallVerdict
        [("ai-model", GoVal.vMap [("probability", GoVal.vFloat (1/2))])]
      ).probability =
        (CalculateOverallVerdict
          [("ai-model", GoVal.vMap [("probability", GoVal.vFloat (3/5))])]
        ).probability ∧
      (CalculateOverallVerdict
          [("ai-model", GoVal.vMap [("probability", GoVal.vFloat (1/2))])]
        ).verdict =
        (CalculateOverallVerdict
          [("ai-model", GoVal.vMap [("probability", GoVal.vFloat (3/5))])]
        ).verdict := by
  have hcA := collect_ai_probe (1/2) (by norm_num) (by norm_num)
  have hcB := collect_ai_probe (3/5) (by norm_num) (by norm_num)
  have hbA : calculateAdvancedBoost
      (applyBalancedCalibration [("ai-model", (1:ℚ)/2)]) = 1 := by
    have h1 : applyBalancedCalibration [("ai-model", (1:ℚ)/2)] =
        [("ai-model", (1:ℚ)/2)] := by
      simp [applyBalancedCalibration, calibrationFactors, lookupA]
      norm_num
    rw [h1]
    simp [calculateAdvancedBoost, lookupA]
    norm_num
  have hbB : calculateAdvancedBoost
      (applyBalancedCalibration [("ai-model", (3:ℚ)/5)]) = 1 := by
    have h1 : applyBalancedCalibration [("ai-model", (3:ℚ)/5)] =
        [("ai-model", (3:ℚ)/5)] := by
      simp [applyBalancedCalibration, calibrationFactors, lookupA]
      norm_num
    rw [h1]
    simp [calculateAdvancedBoost, lookupA]
    norm_num
  exact c9_aimodel_excluded_from_base_score.2.2 [] []
    [("probability", GoVal.vFloat (1/2))]
    [("probability", GoVal.vFloat (3/5))]
    (by norm_num [calculateAIModelScore, getFloatValue, lookupA])
    (by norm_num [calculateAIModelScore, getFloatValue, lookupA])
    (by
      simp only [List.nil_append]
      rw [hcA, hcB]
      show calculateAdvancedBoost
          (applyBalancedCalibration [("ai-model", (1:ℚ)/2)]) =
        calculateAdvancedBoost
          (applyBalancedCalibration [("ai-model", (3:ℚ)/5)])
      rw [hbA, hbB])

theorem lookupA_append {α : Type} (l1 l2 : List (String × α)) (n : String) :
    lookupA (l1 ++ l2) n =
      match lookupA l1 n with
      | some v => some v
      | none => lookupA l2 n := by
  induction l1 with
  | nil => rfl
  | cons p rest ih =>
    by_cases h : p.1 = n
    · simp [lookupA, h]
    · simp [lookupA, h, ih]

theorem lookupA_append_ne {α : Type} (l : List (String × α)) (m n : String)
    (v : α) (h : ¬m = n) :
    lookupA (l ++ [(m, v)]) n = lookupA l n := by
  rw [lookupA_append]
  cases hl : lookupA l n
  · simp [lookupA, h]
  · rfl

theorem lookupA_some_mem {α : Type} (l : List (String × α)) (n : String)
    (v : α) (h : lookupA l n = some v) : n ∈ l.map Prod.fst := by
  induction l with
  | nil => simp [lookupA] at h
  | cons p rest ih =>
    by_cases hp : p.1 = n
    · simp [hp]
    · rw [show lookupA (p :: rest) n = lookupA rest n by
        simp [lookupA, hp]] at h
      simp [ih h]

theorem mem_bubbleOnceAux (s : AnalysisStage) :
    ∀ (l : List AnalysisStage) (a : AnalysisStage),
      s ∈ bubbleOnceAux a l ↔ s = a ∨ s ∈ l := by
  intro l
  induction l with
  | nil =>
    intro a
    simp [bubbleOnceAux]
  | cons b rest ih =>
    intro a
    by_cases h : a.priority > b.priority
    · rw [show bubbleOnceAux a (b :: rest) = b :: bubbleOnceAux a rest by
        simp [bubbleOnceAux, h]]
      simp only [List.mem_cons, ih a]
      try tauto
    · rw [show bubbleOnceAux a (b :: rest) = a :: bubbleOnceAux b rest by
        simp [bubbleOnceAux, h]]
      simp only [List.mem_cons, ih b]
      try tauto

theorem mem_bubbleOnce (s : AnalysisStage) (l : List AnalysisStage) :
    s ∈ bubbleOnce l ↔ s ∈ l := by
  cases l with
  | nil => simp [bubbleOnce]
  | cons a rest =>
    rw [show bubbleOnce (a :: rest) = bubbleOnceAux a rest from rfl,
      mem_bubbleOnceAux s rest a]
    simp

theorem mem_bubbleN (s : AnalysisStage) (n : ℕ) (l : List AnalysisStage) :
    s ∈ bubbleN n l ↔ s ∈ l := by
  induction n generalizing l with
  | zero => rfl
  | succ m ih => rw [show bubbleN (m + 1) l = bubbleN m (bubbleOnce l) from
      rfl, ih, mem_bubbleOnce]

theorem mem_getSortedStages (s : AnalysisStage) (l : List AnalysisStage) :
    s ∈ getSortedStages l ↔ s ∈ l :=
  mem_bubbleN s l.length l

theorem runFT_lookup (env : StageEnv) :
    ∀ (stages : List AnalysisStage) (n : String) (v : GoVal),
      lookupA (runFastTrackStages env stages) n = some v →
      env n = Except.ok v := by
  intro stages
  induction stages with
  | nil =>
    intro n v h
    simp [runFastTrackStages, lookupA] at h
  | cons s rest ih =>
    intro n v h
    by_cases hft : s.fastTrack = true
    · cases he : env s.name with
      | ok w =>
        rw [show runFastTrackStages env (s :: rest) =
            (s.name, w) :: runFastTrackStages env rest by
          simp [runFastTrackStages, hft, he]] at h
        by_cases hn : s.name = n
        · rw [show lookupA ((s.name, w) :: runFastTrackStages env rest) n =
              some w by simp [lookupA, hn]] at h
          cases h
          rw [← hn]
          exact he
        · rw [show lookupA ((s.name, w) :: runFastTrackStages env rest) n =
              lookupA (runFastTrackStages env rest) n by
            simp [lookupA, hn]] at h
          exact ih n v h
      | error e =>
        rw [show runFastTrackStages env (s :: rest) =
            runFastTrackStages env rest by
          simp [runFastTrackStages, hft, he]] at h
        exact ih n v h
    · rw [show runFastTrackStages env (s :: rest) =
          runFastTrackStages env rest by
        simp [runFastTrackStages, hft]] at h
      exact ih n v h

theorem runFT_mem_stage (env : StageEnv) :
    ∀ (stages : List AnalysisStage) (n : String),
      n ∈ (runFastTrackStages env stages).map Prod.fst →
      ∃ s ∈ stages, s.fastTrack = true ∧ s.name = n ∧
        ∃ v, env n = Except.ok v := by
  intro stages
  induction stages with
  | nil =>
    intro n h
    simp [runFastTrackStages] at h
  | cons s rest ih =>
    intro n h
    by_cases hft : s.fastTrack = true
    · cases he : env s.name with
      | ok w =>
        rw [show runFastTrackStages env (s :: rest) =
            (s.name, w) :: runFastTrackStages env rest by
          simp [runFastTrackStages, hft, he]] at h
        rcases List.mem_cons.mp h with h1 | h2
        · have h1b : n = s.name := h1
          refine ⟨s, List.mem_cons_self _ _, hft, h1b.symm, w, ?_⟩
          rw [h1b]
          exact he
        · obtain ⟨s2, hs2, hprop⟩ := ih n h2
          exact ⟨s2, List.mem_cons_of_mem _ hs2, hprop⟩
      | error e =>
        rw [show runFastTrackStages env (s :: rest) =
            runFastTrackStages env rest by
          simp [runFastTrackStages, hft, he]] at h
        obtain ⟨s2, hs2, hprop⟩ := ih n h
        exact ⟨s2, List.mem_cons_of_mem _ hs2, hprop⟩
    · rw [show runFastTrackStages env (s :: rest) =
          runFastTrackStages env rest by
        simp [runFastTrackStages, hft]] at h
      obtain ⟨s2, hs2, hprop⟩ := ih n h
      exact ⟨s2, List.mem_cons_of_mem _ hs2, hprop⟩

theorem runFT_allerr (env : StageEnv) (he : ∀ n, env n = Except.error ()) :
    ∀ stages : List AnalysisStage, runFastTrackStages env stages = [] := by
  intro stages
  induction stages with
  | nil => rfl
  | cons s rest ih =>
    by_cases hft : s.fastTrack = true
    · rw [show runFastTrackStages env (s :: rest) =
          runFastTrackStages env rest by
        simp [runFastTrackStages, hft, he s.name]]
      exact ih
    · rw [show runFastTrackStages env (s :: rest) =
          runFastTrackStages env rest by
        simp [runFastTrackStages, hft]]
      exact ih

theorem phase2_error_canc (env : StageEnv) (canc : CancOracle) :
    ∀ (L : List AnalysisStage) (res : List (String × GoVal))
      (run : List String) (k : ℕ) (e : Unit),
      phase2 env canc L res run k = Except.error e →
      ∃ j, canc j = true := by
  intro L
  induction L with
  | nil =>
    intro res run k e h
    simp [phase2] at h
  | cons s L2 ih =>
    intro res run k e h
    by_cases hskip : (s.fastTrack && (lookupA res s.name).isSome) = true
    · rw [show phase2 env canc (s :: L2) res run k =
          phase2 env canc L2 res run k by simp [phase2, hskip]] at h
      exact ih res run k e h
    · cases he : env s.name with
      | error e2 =>
        rw [show phase2 env canc (s :: L2) res run k =
            phase2 env canc L2 res run (k + 1) by
          simp [phase2, hskip, he]] at h
        exact ih res run (k + 1) e h
      | ok v =>
        by_cases hcp : canc (k + 1) = true
        · exact ⟨k + 1, hcp⟩
        · rw [show phase2 env canc (s :: L2) res run k =
              phase2 env canc L2 (res ++ [(s.name, v)])
                (run ++ [s.name]) (k + 1) by
            simp [phase2, hskip, he, hcp]] at h
          exact ih _ _ (k + 1) e h

theorem phase2_allerr (env : StageEnv) (canc : CancOracle)
    (he : ∀ n, env n = Except.error ()) :
    ∀ (L : List AnalysisStage) (res : List (String × GoVal))
      (run : List String) (k : ℕ),
      phase2 env canc L res run k = Except.ok (res, run) := by
  intro L
  induction L with
  | nil =>
    intro res run k
    rfl
  | cons s L2 ih =>
    intro res run k
    by_cases hskip : (s.fastTrack && (lookupA res s.name).isSome) = true
    · rw [show phase2 env canc (s :: L2) res run k =
          phase2 env canc L2 res run k by simp [phase2, hskip]]
      exact ih res run k
    · rw [show phase2 env canc (s :: L2) res run k =
          phase2 env canc L2 res run (k + 1) by
        simp [phase2, hskip, he s.name]]
      exact ih res run (k + 1)

theorem phase2_spec (env : StageEnv) (canc : CancOracle)
    (hc : ∀ j, canc j = false) :
    ∀ (L : List AnalysisStage) (res : List (String × GoVal))
      (run : List String) (k : ℕ),
      (∀ n, (lookupA res n).isSome → n ∈ run) →
      ∃ res2 run2,
        phase2 env canc L res run k = Except.ok (res2, run2) ∧
          (∀ n, (lookupA res2 n).isSome → n ∈ run2) ∧
          (∀ n, n ∈ run → n ∈ run2) ∧
          (∀ n, env n = Except.error () →
            lookupA res2 n = lookupA res n ∧ (n ∈ run2 ↔ n ∈ run)) ∧
          (∀ s ∈ L, ∀ v, env s.name = Except.ok v → s.name ∈ run2) := by
  intro L
  induction L with
  | nil =>
    intro res run k hsync
    refine ⟨res, run, rfl, hsync, fun n h => h,
      fun n _ => ⟨rfl, Iff.rfl⟩, ?_⟩
    intro s hs
    simp at hs
  | cons s L2 ih =>
    intro res run k hsync
    by_cases hskip : (s.fastTrack && (lookupA res s.name).isSome) = true
    · obtain ⟨res2, run2, heq, hsync2, hmono, habs, hpres⟩ :=
        ih res run k hsync
      refine ⟨res2, run2, ?_, hsync2, hmono, habs, ?_⟩
      · rw [show phase2 env canc (s :: L2) res run k =
            phase2 env canc L2 res run k by simp [phase2, hskip]]
        exact heq
      · intro s2 hs2 v hv
        rcases List.mem_cons.mp hs2 with h1 | h2
        · subst h1
          exact hmono _ (hsync _ (by
            have hb := (Bool.and_eq_true _ _).mp hskip
            exact hb.2))
        · exact hpres s2 h2 v hv
    · cases he : env s.name with
      | error e2 =>
        obtain ⟨res2, run2, heq, hsync2, hmono, habs, hpres⟩ :=
          ih res run (k + 1) hsync
        refine ⟨res2, run2, ?_, hsync2, hmono, habs, ?_⟩
        · rw [show phase2 env canc (s :: L2) res run k =
              phase2 env canc L2 res run (k + 1) by
            simp [phase2, hskip, he]]
          exact heq
        · intro s2 hs2 v hv
          rcases List.mem_cons.mp hs2 with h1 | h2
          · subst h1
            rw [he] at hv
            cases hv
          · exact hpres s2 h2 v hv
      | ok v =>
        have hsync1 : ∀ n,
            (lookupA (res ++ [(s.name, v)]) n).isSome →
            n ∈ run ++ [s.name] := by
          intro n hn
          rw [lookupA_append] at hn
          cases hl : lookupA res n with
          | some w =>
            exact List.mem_append_left _ (hsync n (by rw [hl]; rfl))
          | none =>
            rw [hl] at hn
            by_cases hsn : s.name = n
            · rw [hsn]
              exact List.mem_append_right _ (List.mem_singleton.mpr rfl)
            · rw [show lookupA [(s.name, v)] n = none by
                simp [lookupA, hsn]] at hn
              simp at hn
        obtain ⟨res2, run2, heq, hsync2, hmono, habs, hpres⟩ :=
          ih (res ++ [(s.name, v)]) (run ++ [s.name]) (k + 1) hsync1
        refine ⟨res2, run2, ?_, hsync2, ?_, ?_, ?_⟩
        · rw [show phase2 env canc (s :: L2) res run k =
              phase2 env canc L2 (res ++ [(s.name, v)])
                (run ++ [s.name]) (k + 1) by
            simp [phase2, hskip, he, hc (k + 1)]]
          exact heq
        · intro n hn
          exact hmono n (List.mem_append_left _ hn)
        · intro n hnerr
          have hne : ¬s.name = n := by
            intro hcontra
            rw [hcontra, hnerr] at he
            cases he
          obtain ⟨hl2, hm2⟩ := habs n hnerr
          constructor
          · rw [hl2, lookupA_append_ne res s.name n v hne]
          · rw [hm2]
            constructor
            · intro hmem
              rcases List.mem_append.mp hmem with h1 | h2
              · exact h1
              · exact absurd (List.mem_singleton.mp h2).symm hne
            · intro hmem
              exact List.mem_append_left _ hmem
        · intro s2 hs2 v2 hv2
          rcases List.mem_cons.mp hs2 with h1 | h2
          · subst h1
            exact hmono _ (List.mem_append_right _
              (List.mem_singleton.mpr rfl))
          · exact hpres s2 h2 v2 hv2

theorem runFT_lookup_none (env : StageEnv) (stages : List AnalysisStage)
    (n : String) (hne : env n = Except.error ()) :
    lookupA (runFastTrackStages env stages) n = none := by
  cases hl : lookupA (runFastTrackStages env stages) n with
  | none => rfl
  | some v =>
    have h2 := runFT_lookup env stages n v hl
    rw [hne] at h2
    cases h2

theorem runFT_not_mem (env : StageEnv) (stages : List AnalysisStage)
    (n : String) (hne : env n = Except.error ()) :
    n ∉ (runFastTrackStages env stages).map Prod.fst := by
  intro hmem
  obtain ⟨s, _, _, _, v, hv⟩ := runFT_mem_stage env stages n hmem
  rw [hne] at hv
  cases hv

theorem runFull_error_canc (stages : List AnalysisStage) (enabled : Bool)
    (env : StageEnv) (canc : CancOracle) (e : Unit)
    (h : runFullAnalysis stages enabled env canc = Except.error e) :
    ∃ j, canc j = true := by
  cases enabled with
  | false =>
    simp only [runFullAnalysis] at h
    cases hp : phase2 env canc (getSortedStages stages) [] [] 0 with
    | error e2 =>
      exact phase2_error_canc env canc _ [] [] 0 e2 hp
    | ok out =>
      simp [hp] at h
  | true =>
    simp only [runFullAnalysis] at h
    by_cases hee : shouldEarlyExit true
        (runFastTrackStages env (getSortedStages stages)) = true
    · simp [hee] at h
    · rw [Bool.not_eq_true] at hee
      cases hp : phase2 env canc (getSortedStages stages)
          (runFastTrackStages env (getSortedStages stages))
          ((runFastTrackStages env (getSortedStages stages)).map Prod.fst)
          0 with
      | error e2 =>
        exact phase2_error_canc env canc _ _ _ 0 e2 hp
      | ok out =>
        simp [hee, hp] at h

theorem runFull_isolation (stages : List AnalysisStage) (enabled : Bool)
    (env : StageEnv) (canc : CancOracle) (hc : ∀ j, canc j = false) :
    ∃ r, runFullAnalysis stages enabled env canc = Except.ok r ∧
      (∀ n, env n = Except.error () →
        lookupA r.results n = none ∧ n ∉ r.stagesRun) ∧
      (r.earlyExit = false → ∀ s ∈ stages, ∀ v,
        env s.name = Except.ok v → s.name ∈ r.stagesRun) := by
  cases enabled with
  | false =>
    obtain ⟨res2, run2, heq, hsync2, hmono, habs, hpres⟩ :=
      phase2_spec env canc hc (getSortedStages stages) [] [] 0
        (by intro n hn; simp [lookupA] at hn)
    refine ⟨PipelineResult.mk res2 run2 0 false
      (calculateFinalConfidence stages res2) false, ?_, ?_, ?_⟩
    · simp [runFullAnalysis, heq]
    · intro n hn
      obtain ⟨hl, hm⟩ := habs n hn
      refine ⟨by simpa [lookupA] using hl, ?_⟩
      intro hmem
      simpa using hm.mp hmem
    · intro _ s hs v hv
      exact hpres s ((mem_getSortedStages s stages).mpr hs) v hv
  | true =>
    by_cases hee : shouldEarlyExit true
        (runFastTrackStages env (getSortedStages stages)) = true
    · refine ⟨PipelineResult.mk
        (runFastTrackStages env (getSortedStages stages))
        ((runFastTrackStages env (getSortedStages stages)).map Prod.fst)
        0 true calculateEarlyConfidence false, ?_, ?_, ?_⟩
      · simp [runFullAnalysis, hee]
      · intro n hn
        exact ⟨runFT_lookup_none env _ n hn, runFT_not_mem env _ n hn⟩
      · intro hfalse
        simp at hfalse
    · rw [Bool.not_eq_true] at hee
      obtain ⟨res2, run2, heq, hsync2, hmono, habs, hpres⟩ :=
        phase2_spec env canc hc (getSortedStages stages)
          (runFastTrackStages env (getSortedStages stages))
          ((runFastTrackStages env (getSortedStages stages)).map Prod.fst)
          0
          (by
            intro n hn
            obtain ⟨v, hv⟩ := Option.isSome_iff_exists.mp hn
            exact lookupA_some_mem _ n v hv)
      refine ⟨PipelineResult.mk res2 run2 0 false
        (calculateFinalConfidence stages res2) false, ?_, ?_, ?_⟩
      · simp [runFullAnalysis, hee, heq]
      · intro n hn
        obtain ⟨hl, hm⟩ := habs n hn
        refine ⟨?_, ?_⟩
        · show lookupA res2 n = none
          rw [hl]
          exact runFT_lookup_none env _ n hn
        · show n ∉ run2
          intro hmem
          exact runFT_not_mem env _ n hn (hm.mp hmem)
      · intro _ s hs v hv
        exact hpres s ((mem_getSortedStages s stages).mpr hs) v hv

/-- C3 counterexample. The claim demands: whenever the parent context is
cancelled during the full-run phase, the call returns the cancellation
error and never a partial `PipelineResult`. In this run the parent is
cancelled throughout (`cancAlways`), only the fast-track metadata-quick
stage succeeded, and every phase-2 stage attempt errors (as analyzers under
a cancelled context do); the `continue` on each failed stage skips the
cancellation check, so `runFullAnalysis` returns a partial result with no
error. -/
theorem c3_counterexample_partial_after_cancel :
    runFullAnalysis getDefaultStages true envOnlyQuick cancAlways =
        Except.ok
          { results := [("metadata-quick", GoVal.vMap [])],
            stagesRun := ["metadata-quick"], processTime := 0,
            earlyExit := false, confidence := 8/15, cacheHit := false } ∧
      cancAlways 1 = true := by
  refine ⟨?_, rfl⟩
  have hft : runFastTrackStages envOnlyQuick
      (getSortedStages getDefaultStages) =
      [("metadata-quick", GoVal.vMap [])] := by rfl
  have hsee : shouldEarlyExit true [("metadata-quick", GoVal.vMap [])] =
      false := by
    simp [shouldEarlyExit, lookupA, hasDefinitiveMetadataEvidence, asMap,
      detectAIFromMetadata]
    norm_num
  have hph : phase2 envOnlyQuick cancAlways
      (getSortedStages getDefaultStages)
      [("metadata-quick", GoVal.vMap [])] ["metadata-quick"] 0 =
      Except.ok ([("metadata-quick", GoVal.vMap [])], ["metadata-quick"]) :=
    by rfl
  rw [show runFullAnalysis getDefaultStages true envOnlyQuick cancAlways =
      Except.ok
        { results := [("metadata-quick", GoVal.vMap [])],
          stagesRun := ["metadata-quick"], processTime := 0,
          earlyExit := false,
          confidence := calculateFinalConfidence getDefaultStages
            [("metadata-quick", GoVal.vMap [])],
          cacheHit := false } by
    simp [runFullAnalysis, hft, hsee, hph]]
  simp only [Except.ok.injEq, PipelineResult.mk.injEq]
  norm_num [calculateFinalConfidence, getDefaultStages]

/-- C3 amended. Cancellation of the parent context is observed only at the
check that follows a successfully completed full-run stage: if the context
is cancelled by the end of the first attempted stage and that stage's
analyzer succeeds, the call returns the cancellation error and no
`PipelineResult`; but when every stage attempt errors — the usual effect of
a cancelled context on the analyzers — the loop never reaches the check and
returns a (partial, possibly empty) `PipelineResult` with no error. -/
theorem c3_amended_cancellation_observed_after_success :
    (∀ (stages : List AnalysisStage) (env : StageEnv) (canc : CancOracle)
      (s : AnalysisStage) (rest : List AnalysisStage) (v : GoVal),
      getSortedStages stages = s :: rest → env s.name = Except.ok v →
      canc 1 = true →
      runFullAnalysis stages false env canc = Except.error ()) ∧
    (∀ (stages : List AnalysisStage) (enabled : Bool) (env : StageEnv)
      (canc : CancOracle),
      (∀ n, env n = Except.error ()) →
      ∃ r, runFullAnalysis stages enabled env canc = Except.ok r ∧
        r.results = [] ∧ r.stagesRun = []) := by
  constructor
  · intro stages env canc s rest v hsort henv hcanc
    simp [runFullAnalysis, hsort, phase2, lookupA, henv, hcanc]
  · intro stages enabled env canc he
    have hft0 : (if enabled = true then
        runFastTrackStages env (getSortedStages stages) else []) = [] := by
      cases enabled
      · rfl
      · simp [runFT_allerr env he]
    refine ⟨PipelineResult.mk [] [] 0 false
      (calculateFinalConfidence stages []) false, ?_, rfl, rfl⟩
    simp [runFullAnalysis, hft0, shouldEarlyExit, lookupA,
      phase2_allerr env canc he]

theorem c3_witness :
    runFullAnalysis [probeStage] false envAllOkEmpty cancAlways =
      Except.error () :=
  c3_amended_cancellation_observed_after_success.1 [probeStage]
    envAllOkEmpty cancAlways probeStage [] (GoVal.vMap []) rfl rfl rfl

/-- C4. Exactly two conditions are fatal to `RunAnalysis`: failure to read
and fingerprint the artifact (the read error), and parent-context
cancellation — any returned error is one of those two, and when the
artifact is readable and the context is never cancelled the call succeeds.
Analyzer-level failures are recovered locally: a stage whose analyzer
errors is absent from `resultsByStage` and from `stagesRun` (no sentinel is
stored), while the remaining stages still run (every stage whose analyzer
succeeds appears in `stagesRun` when no early exit happens). -/
theorem c4_only_two_fatal_conditions :
    (∀ (fs : String → Option (List ℕ)) (cache : AnalysisCache)
      (now ld cd : ℕ) (enabled : Bool) (env : StageEnv)
      (canc : CancOracle) (path : String) (e : PipelineError),
      RunAnalysis fs cache now ld cd enabled env canc path =
        Except.error e →
      (e = PipelineError.readError ∧ fs path = none) ∨
        (e = PipelineError.cancelled ∧ ∃ j, canc j = true)) ∧
    (∀ (fs : String → Option (List ℕ)) (cache : AnalysisCache)
      (now ld cd : ℕ) (enabled : Bool) (env : StageEnv)
      (canc : CancOracle) (path : String) (content : List ℕ),
      fs path = some content → (∀ j, canc j = false) →
      ∃ out, RunAnalysis fs cache now ld cd enabled env canc path =
        Except.ok out) ∧
    (∀ (stages : List AnalysisStage) (enabled : Bool) (env : StageEnv)
      (canc : CancOracle),
      (∀ j, canc j = false) →
      ∃ r, runFullAnalysis stages enabled env canc = Except.ok r ∧
        (∀ n, env n = Except.error () →
          lookupA r.results n = none ∧ n ∉ r.stagesRun) ∧
        (r.earlyExit = false → ∀ s ∈ stages, ∀ v,
          env s.name = Except.ok v → s.name ∈ r.stagesRun)) := by
  refine ⟨?_, ?_, runFull_isolation⟩
  · intro fs cache now ld cd enabled env canc path e h
    cases hfs : fs path with
    | none =>
      left
      simp [RunAnalysis, generateCacheKey, hfs] at h
      exact ⟨h.symm, rfl⟩
    | some content =>
      right
      simp only [RunAnalysis, generateCacheKey, hfs, Option.map] at h
      cases hget : cacheGet cache (contentFingerprint content) now with
      | some cached =>
        rw [hget] at h
        simp at h
      | none =>
        rw [hget] at h
        cases hrf : runFullAnalysis getDefaultStages enabled env canc with
        | ok r =>
          rw [hrf] at h
          simp at h
        | error e2 =>
          rw [hrf] at h
          simp at h
          exact ⟨h.symm,
            runFull_error_canc getDefaultStages enabled env canc e2 hrf⟩
  · intro fs cache now ld cd enabled env canc path content hfs hc
    simp only [RunAnalysis, generateCacheKey, hfs, Option.map]
    cases hget : cacheGet cache (contentFingerprint content) now with
    | some cached =>
      exact ⟨_, rfl⟩
    | none =>
      obtain ⟨r, hr, _, _⟩ :=
        runFull_isolation getDefaultStages enabled env canc hc
      rw [hr]
      exact ⟨_, rfl⟩

theorem c4_witness :
    ∃ out, RunAnalysis (fun _ => some [7]) [] 0 1 2 true envAllErr
      cancNever "p" = Except.ok out :=
  c4_only_two_fatal_conditions.2.1 (fun _ => some [7]) [] 0 1 2 true
    envAllErr cancNever "p" [7] rfl (fun _ => rfl)



/-- C2. If early exit is enabled and a fast-track stage's analyzer result
satisfies a definitive-evidence predicate - the metadata-quick result shows
a generative-AI tool keyword, or the c2pa result's score field is at least
95 - then `runFullAnalysis` returns a `PipelineResult` with
`earlyExit = true`, the fixed confidence 0.98, and a `stagesRun` list whose
every entry is the name of a fast-track stage of the catalog: no
non-fast-track stage appears. -/
theorem c2_definitive_fast_track_early_exit (env : StageEnv)
    (canc : CancOracle)
    (h : (∃ v, env ("metadata-quick") = Except.ok v ∧
            hasDefinitiveMetadataEvidence v = true) ∨
         (∃ v, env ("c2pa") = Except.ok v ∧
            hasDefinitiveC2PAEvidence v = true)) :
    ∃ r, runFullAnalysis getDefaultStages true env canc = Except.ok r ∧
      r.earlyExit = true ∧ r.confidence = 49/50 ∧
      ∀ n ∈ r.stagesRun, ∃ s ∈ getDefaultStages,
        s.fastTrack = true ∧ s.name = n := by
  suffices hsee : shouldEarlyExit true
      (runFastTrackStages env (getSortedStages getDefaultStages)) = true by
    refine ⟨PipelineResult.mk
      (runFastTrackStages env (getSortedStages getDefaultStages))
      ((runFastTrackStages env (getSortedStages getDefaultStages)).map
        Prod.fst)
      0 true calculateEarlyConfidence false, ?_, rfl, rfl, ?_⟩
    · simp [runFullAnalysis, hsee]
    · intro n hn
      obtain ⟨s, hs, hftk, hname, hv⟩ := runFT_mem_stage env _ n hn
      exact ⟨s, (mem_getSortedStages s getDefaultStages).mp hs, hftk, hname⟩
  rcases h with ⟨v, henv, hdef⟩ | ⟨v, henv, hdef⟩
  · obtain ⟨rest, hsorted⟩ : ∃ rest, getSortedStages getDefaultStages =
        AnalysisStage.mk ("metadata-quick") 1 true 5 [] :: rest := ⟨_, rfl⟩
    rw [hsorted]
    rw [show runFastTrackStages env
        (AnalysisStage.mk ("metadata-quick") 1 true 5 [] :: rest) =
        (("metadata-quick"), v) :: runFastTrackStages env rest by
      simp [runFastTrackStages, henv]]
    simp [shouldEarlyExit, lookupA, hdef]
  · obtain ⟨rest, hsorted⟩ : ∃ rest, getSortedStages getDefaultStages =
        AnalysisStage.mk ("metadata-quick") 1 true 5 [] ::
          AnalysisStage.mk ("c2pa") 1 true 8 [] :: rest := ⟨_, rfl⟩
    rw [hsorted]
    cases hmq : env ("metadata-quick") with
    | ok u =>
      rw [show runFastTrackStages env
          (AnalysisStage.mk ("metadata-quick") 1 true 5 [] ::
            AnalysisStage.mk ("c2pa") 1 true 8 [] :: rest) =
          (("metadata-quick"), u) :: (("c2pa"), v) ::
            runFastTrackStages env rest by
        simp [runFastTrackStages, hmq, henv]]
      simp [shouldEarlyExit, lookupA, hdef]
    | error e =>
      cases e
      have hnone : lookupA (runFastTrackStages env rest)
          ("metadata-quick") = none :=
        runFT_lookup_none env rest ("metadata-quick") hmq
      rw [show runFastTrackStages env
          (AnalysisStage.mk ("metadata-quick") 1 true 5 [] ::
            AnalysisStage.mk ("c2pa") 1 true 8 [] :: rest) =
          (("c2pa"), v) :: runFastTrackStages env rest by
        simp [runFastTrackStages, hmq, henv]]
      simp [shouldEarlyExit, lookupA, hnone, hdef]

theorem c2_witness :
    ∃ r, runFullAnalysis getDefaultStages true envDefinitiveMeta cancNever =
        Except.ok r ∧
      r.earlyExit = true ∧ r.confidence = 49/50 ∧
      ∀ n ∈ r.stagesRun, ∃ s ∈ getDefaultStages,
        s.fastTrack = true ∧ s.name = n := by
  have hdet : detectAIFromMetadata
      [(("Software"), GoVal.vStr ("Midjourney"))] = 1 := by decide
  have hdefm : hasDefinitiveMetadataEvidence
      (GoVal.vMap [(("Software"), GoVal.vStr ("Midjourney"))]) = true := by
    simp only [hasDefinitiveMetadataEvidence, asMap, decide_eq_true_eq]
    rw [hdet]; norm_num
  refine c2_definitive_fast_track_early_exit envDefinitiveMeta cancNever
    (Or.inl ⟨GoVal.vMap [(("Software"), GoVal.vStr ("Midjourney"))],
      ?_, hdefm⟩)
  simp [envDefinitiveMeta]
/-- C1. The cache key of `RunAnalysis` is a fingerprint of the artifact's
bytes only, never of the path: two paths whose files hold identical byte
content yield equal cache keys; and a second `RunAnalysis` call on the
second path within the TTL window after a first (cache-missing) call on the
first path returns `cacheHit = true` with a result value-equal to the first
call's result except for the `cacheHit` and `processTime` fields. -/
theorem c1_content_addressed_cache
    (fs : String → Option (List ℕ)) (cache0 : AnalysisCache)
    (t1 t2 ld1 cd1 ld2 cd2 : ℕ) (enabled : Bool)
    (env env2 : StageEnv) (canc canc2 : CancOracle)
    (p1 p2 : String) (bytes : List ℕ)
    (r1 : PipelineResult) (cache1 : AnalysisCache)
    (hfs1 : fs p1 = some bytes) (hfs2 : fs p2 = some bytes)
    (hmiss : cacheGet cache0 (contentFingerprint bytes) t1 = none)
    (hrun1 : RunAnalysis fs cache0 t1 ld1 cd1 enabled env canc p1 =
      Except.ok (r1, cache1))
    (httl : t2 ≤ t1 + ttl30) :
    (∃ r2, RunAnalysis fs cache1 t2 ld2 cd2 enabled env2 canc2 p2 =
        Except.ok (r2, cache1) ∧
      r2.cacheHit = true ∧ r1.cacheHit = false ∧
      r2.results = r1.results ∧ r2.stagesRun = r1.stagesRun ∧
      r2.earlyExit = r1.earlyExit ∧ r2.confidence = r1.confidence ∧
      r2.processTime = ld2) ∧
    generateCacheKey fs p1 = generateCacheKey fs p2 := by
  constructor
  · simp only [RunAnalysis, generateCacheKey, hfs1, Option.map] at hrun1
    simp only [hmiss] at hrun1
    cases hrf : runFullAnalysis getDefaultStages enabled env canc with
    | error e =>
      rw [hrf] at hrun1
      simp at hrun1
    | ok res =>
      rw [hrf] at hrun1
      simp only [Except.ok.injEq, Prod.mk.injEq] at hrun1
      obtain ⟨hr1, hc1⟩ := hrun1
      have hhit1 : r1.cacheHit = false := by rw [← hr1]
      rw [hr1] at hc1
      refine ⟨PipelineResult.mk r1.results r1.stagesRun ld2 r1.earlyExit
        r1.confidence true, ?_, rfl, hhit1, rfl, rfl, rfl, rfl, rfl⟩
      simp only [RunAnalysis, generateCacheKey, hfs2, Option.map]
      rw [← hc1, cacheGet_set, if_pos httl]
  · simp only [generateCacheKey, hfs1, hfs2]

theorem c1_witness :
    (∃ r2, RunAnalysis fsW cacheW 1800 3 4 true envAllErr cancNever ("b") =
        Except.ok (r2, cacheW) ∧
      r2.cacheHit = true ∧ resW.cacheHit = false ∧
      r2.results = resW.results ∧ r2.stagesRun = resW.stagesRun ∧
      r2.earlyExit = resW.earlyExit ∧ r2.confidence = resW.confidence ∧
      r2.processTime = 3) ∧
    generateCacheKey fsW ("a") = generateCacheKey fsW ("b") := by
  have hfs1 : fsW ("a") = some [7] := by simp [fsW]
  have hfs2 : fsW ("b") = some [7] := by simp [fsW]
  have hmiss : cacheGet ([] : AnalysisCache) (contentFingerprint [7]) 0 =
      none := rfl
  have hconf : calculateFinalConfidence getDefaultStages
      ([] : List (String × GoVal)) = 1/2 := by
    simp [calculateFinalConfidence]
  have hft : runFastTrackStages envAllErr
      (getSortedStages getDefaultStages) = [] :=
    runFT_allerr envAllErr (fun _ => rfl) _
  have hrun : runFullAnalysis getDefaultStages true envAllErr cancNever =
      Except.ok (PipelineResult.mk [] [] 0 false (1/2) false) := by
    simp only [runFullAnalysis, hft]
    simp only [shouldEarlyExit, lookupA,
      phase2_allerr envAllErr cancNever (fun _ => rfl), List.map_nil]
    simp [hconf]
  have hrun1 : RunAnalysis fsW [] 0 2 9 true envAllErr cancNever ("a") =
      Except.ok (resW, cacheW) := by
    simp [RunAnalysis, generateCacheKey, fsW, Option.map, cacheGet,
      lookupA2, hrun, resW, cacheW, contentFingerprint]
  have httl : (1800 : ℕ) ≤ 0 + ttl30 := by decide
  exact c1_content_addressed_cache fsW [] 0 1800 2 9 3 4 true envAllErr
    envAllErr cancNever cancNever ("a") ("b") [7] resW cacheW hfs1 hfs2
    hmiss hrun1 httl

end ImageAnalyzer
